import Mathlib

/-!
# Task tracker (`main.go`): model and properties

A shallow embedding of the command handlers of the task tracker.

* Go's `int` is modelled as `Int` restricted to the 64-bit two's-complement
  range; the one arithmetic operation of the program (`maxID + 1` in
  `addTask`) wraps around through `wrapInt`.
* `time.Now()` is an input of the handler that calls it.
* Every handler starts with `readTasksFromFile` and returns its error
  unchanged; the handlers below are the code that runs after a successful
  read, as a function of the collection that was loaded.  What a handler
  passes to `writeTasksToFile` is the field `written` of its result, and what
  it prints on standard output is the field `stdout`, one list element per
  `fmt.Printf` / `fmt.Println` call.
* Go strings are modelled as Unicode text: a `String` stands for the Go string
  that is its UTF-8 encoding.  Go strings that are not valid UTF-8 have no
  counterpart here.
* The file is modelled by what `os.ReadFile` returns, and its bytes by the JSON
  document they spell: `encoding/json` is modelled on document trees, and the
  text form of a `time.Time` by a codec that is a parameter of the store.
-/

namespace TaskTracker

/-! ## Machine integers -/

/-- Smallest value of Go's `int` on a 64-bit target. -/
def minInt : Int := -(2 ^ 63)

/-- Largest value of Go's `int` on a 64-bit target. -/
def maxInt : Int := 2 ^ 63 - 1

/-- Two's-complement wrap-around: the value Go's `int` arithmetic stores for
the mathematical result `x`. -/
def wrapInt (x : Int) : Int := (x + 2 ^ 63) % 2 ^ 64 - 2 ^ 63

/-! ## Data model -/

/-- A `time.Time` value, as an instant in nanoseconds. -/
structure Time where
  unixNano : Int
deriving DecidableEq, Repr

/-- The `Task` struct (`main.go`, lines 67-73). -/
structure Task where
  ID : Int
  Description : String
  Status : String
  CreatedAt : Time
  UpdateAt : Time
deriving DecidableEq, Repr

/-- The errors a command can return, by the place that creates them. -/
inductive Err where
  /-- `errors.New(msg)` in `run`: a required argument is missing. -/
  | usage (msg : String)
  /-- `fmt.Errorf("unknown command %s", cmd)` in `run`. -/
  | unknownCommand (cmd : String)
  /-- `fmt.Errorf("incorrect ID format: %s", idStr)`. -/
  | incorrectID (idStr : String)
  /-- `fmt.Errorf("The task with ID %d is not found", id)`. -/
  | notFound (id : Int)
  /-- A run-time panic of an out-of-range slice index. -/
  | indexOutOfRange
  /-- An error of `os.ReadFile` other than "the file does not exist". -/
  | readFile
  /-- An error of `json.Unmarshal`. -/
  | unmarshal
  /-- An error of `json.MarshalIndent`. -/
  | marshal
deriving DecidableEq, Repr

/-- The text of an error that the program creates itself, as `log.Fatal`
prints it; `none` for an error that comes from a library or from the run-time
system, whose text is made there. -/
def Err.message : Err → Option String
  | .usage msg => some msg
  | .unknownCommand cmd => some ("unknown command " ++ cmd)
  | .incorrectID idStr => some ("incorrect ID format: " ++ idStr)
  | .notFound id => some ("The task with ID " ++ toString id ++ " is not found")
  | .indexOutOfRange => none
  | .readFile => none
  | .unmarshal => none
  | .marshal => none

/-- What a command that returns `nil` has done: the chunks it printed, and the
collection it handed to `writeTasksToFile` (`none` when it does not write). -/
structure Effect where
  stdout : List String
  written : Option (List Task)
deriving DecidableEq, Repr

/-! ## `strconv.Atoi` -/

/-- Value of a decimal digit, `none` for any other character. -/
def digitVal (c : Char) : Option Nat :=
  if 48 ≤ c.toNat ∧ c.toNat ≤ 57 then some (c.toNat - 48) else none

/-- Reads a run of decimal digits, most significant first. -/
def parseDigits : List Char → Nat → Option Nat
  | [], acc => some acc
  | c :: cs, acc =>
    match digitVal c with
    | none => none
    | some d => parseDigits cs (acc * 10 + d)

/-- The library function `strconv.Atoi` for a 64-bit `int`: an optional sign,
then at least one decimal digit and nothing else, and a value that fits the
type; `none` stands for a non-nil error. -/
def Atoi (s : String) : Option Int :=
  match s.toList with
  | [] => none
  | c :: cs =>
    let neg := c = '-'
    let ds := if c = '-' ∨ c = '+' then cs else c :: cs
    if ds = [] then none
    else
      match parseDigits ds 0 with
      | none => none
      | some n =>
        let v : Int := if neg then -(n : Int) else (n : Int)
        if minInt ≤ v ∧ v ≤ maxInt then some v else none

/-! ## Command handlers -/

/-- The loop of `addTask` (lines 115-121): the largest id above the initial
value of `maxID`. -/
def maxIDLoop (maxID : Int) : List Task → Int
  | [] => maxID
  | task :: rest => maxIDLoop (if task.ID > maxID then task.ID else maxID) rest

/-- The task `addTask` builds (lines 115-129); `now₁` and `now₂` are the two
readings of `time.Now()`. -/
def newTask (tasks : List Task) (description : String) (now₁ now₂ : Time) : Task :=
  let maxID := maxIDLoop 0 tasks
  { ID := wrapInt (maxID + 1)
    Description := description
    Status := "todo"
    CreatedAt := now₁
    UpdateAt := now₂ }

/-- The handler `addTask` (lines 110-134) after the read. -/
def addTask (tasks : List Task) (description : String) (now₁ now₂ : Time) :
    Except Err Effect :=
  let t := newTask tasks description now₁ now₂
  .ok { stdout := ["Task has been added (ID: " ++ toString t.ID ++ ")\n"]
        written := some (tasks ++ [t]) }

/-- The line `listTasks` prints for one task (line 147). -/
def taskLine (task : Task) : String :=
  toString task.ID ++ ". [" ++ task.Status ++ "] " ++ task.Description ++ "\n"

/-- The loop of `listTasks` (lines 145-149). -/
def listLoop (statusFilter : String) : List Task → List String
  | [] => []
  | task :: rest =>
    if statusFilter = "all" ∨ task.Status = statusFilter then
      taskLine task :: listLoop statusFilter rest
    else listLoop statusFilter rest

/-- The separator line `listTasks` prints first and last. -/
def separator : String := "------------------------\n"

/-- The handler `listTasks` (lines 136-160) after the read.  The variable
`found` is set to `false` on line 143 and never assigned again. -/
def listTasks (tasks : List Task) (statusFilter : String) : Except Err Effect :=
  let found := false
  .ok { stdout :=
          [separator] ++ listLoop statusFilter tasks
            ++ (if !found ∧ statusFilter ≠ "all" then
                  ["Tasks with status " ++ "\x27" ++ statusFilter ++ "\x27" ++ " are not found"]
                else [])
            ++ (if tasks.length = 0 then ["Task list is empty\n"] else [])
            ++ [separator]
        written := none }

/-- The loop of `findTaskIndexByID` (lines 230-234); `i` is the index of the
head of the list. -/
def findIndexLoop (id : Int) : List Task → Nat → Option Nat
  | [], _ => none
  | task :: rest, i => if task.ID = id then some i else findIndexLoop id rest (i + 1)

/-- The function `findTaskIndexByID` (lines 224-237). -/
def findTaskIndexByID (tasks : List Task) (idStr : String) : Except Err Nat :=
  match Atoi idStr with
  | none => .error (.incorrectID idStr)
  | some id =>
    match findIndexLoop id tasks 0 with
    | some i => .ok i
    | none => .error (.notFound id)

/-- The handler `updateTask` (lines 162-176) after the read. -/
def updateTask (tasks : List Task) (idStr description : String) (now : Time) :
    Except Err Effect :=
  match findTaskIndexByID tasks idStr with
  | .error err => .error err
  | .ok taskIndex =>
    match tasks[taskIndex]? with
    | none => .error .indexOutOfRange
    | some task =>
      let task₁ := { task with Description := description }
      let task₂ := { task₁ with UpdateAt := now }
      .ok { stdout := ["The task " ++ toString task₂.ID ++ " has been updated.\n"]
            written := some (tasks.set taskIndex task₂) }

/-- The handler `updateTaskStatus` (lines 178-193) after the read.  Line 190
stores the literal `"done"`; the parameter `status` only reaches the message
of line 191. -/
def updateTaskStatus (tasks : List Task) (idStr status : String) (now : Time) :
    Except Err Effect :=
  match findTaskIndexByID tasks idStr with
  | .error err => .error err
  | .ok taskIndex =>
    match tasks[taskIndex]? with
    | none => .error .indexOutOfRange
    | some task =>
      let task₁ := { task with UpdateAt := now }
      let task₂ := { task₁ with Status := "done" }
      .ok { stdout := ["Status of the task " ++ toString task₂.ID
                          ++ " has been changed to " ++ status ++ ".\n"]
            written := some (tasks.set taskIndex task₂) }

/-- The loop of `deleteTask` (lines 205-214): the pair of `newTasks` and
`found`. -/
def deleteLoop (ID : Int) : List Task → List Task × Bool → List Task × Bool
  | [], acc => acc
  | task :: rest, (newTasks, found) =>
    if task.ID ≠ ID then deleteLoop ID rest (newTasks ++ [task], found)
    else deleteLoop ID rest (newTasks, true)

/-- The handler `deleteTask` (lines 195-222) after the read. -/
def deleteTask (tasks : List Task) (idStr : String) : Except Err Effect :=
  match Atoi idStr with
  | none => .error (.incorrectID idStr)
  | some ID =>
    let (newTasks, found) := deleteLoop ID tasks ([], false)
    if !found then .error (.notFound ID)
    else
      .ok { stdout := ["The task " ++ toString ID ++ " has been removed.\n"]
            written := some newTasks }

/-- The dispatcher `run` (lines 26-65); `cmd` is `args[0]` and `rest` the
arguments after it. -/
def run (cmd : String) (rest : List String) (tasks : List Task) (now₁ now₂ : Time) :
    Except Err Effect :=
  if cmd = "add" then
    match rest with
    | [] => .error (.usage "There is no description for task")
    | description :: _ => addTask tasks description now₁ now₂
  else if cmd = "update" then
    match rest with
    | idStr :: description :: _ => updateTask tasks idStr description now₁
    | _ => .error (.usage "You should enter ID of the task and its description")
  else if cmd = "mark-done" then
    match rest with
    | [] => .error (.usage "You should enter ID of the task you want make done")
    | idStr :: _ => updateTaskStatus tasks idStr "done" now₁
  else if cmd = "mark-in-progress" then
    match rest with
    | [] => .error (.usage "You should enter ID of the task you want make in-progress")
    | idStr :: _ => updateTaskStatus tasks idStr "in-progress" now₁
  else if cmd = "list" then
    match rest with
    | [] => listTasks tasks "all"
    | status :: _ => listTasks tasks status
  else if cmd = "delete" then
    match rest with
    | [] => .error (.usage "You should enter ID of the task you want to delete")
    | idStr :: _ => deleteTask tasks idStr
  else .error (.unknownCommand cmd)

deriving instance DecidableEq for Except

/-! ## Sequences of invocations

Every invocation of the program reads the file, runs one handler and, when the
handler succeeds, overwrites the file with the collection the handler built.
A later invocation is taken to load the collection the earlier one wrote. -/

/-- The collection in the file after a command that was started on `tasks`:
the collection the command wrote, or `tasks` itself when the command returned
an error or wrote nothing. -/
def stored (tasks : List Task) (r : Except Err Effect) : List Task :=
  match r with
  | .ok ⟨_, some saved⟩ => saved
  | _ => tasks

/-- An `add` or a `delete` invocation; an `add` carries the two readings of the
clock it makes. -/
inductive Command where
  | add (description : String) (now₁ now₂ : Time)
  | delete (idStr : String)
deriving DecidableEq, Repr

/-- The ids given out by the `add` commands of a sequence of invocations, in
order: each is the id `addTask` prints and stores in the task it appends. -/
def assignedIDs : List Task → List Command → List Int
  | _, [] => []
  | tasks, .add d n₁ n₂ :: cmds =>
    (newTask tasks d n₁ n₂).ID :: assignedIDs (stored tasks (addTask tasks d n₁ n₂)) cmds
  | tasks, .delete idStr :: cmds =>
    assignedIDs (stored tasks (deleteTask tasks idStr)) cmds

/-- The condition of the specification "no delete removes the task holding the
current maximum id": whenever a `delete` of the sequence names an id that is
present in the collection it runs on, some task of that collection has a
larger id. -/
def noDeleteOfMax : List Task → List Command → Bool
  | _, [] => true
  | tasks, .add d n₁ n₂ :: cmds =>
    noDeleteOfMax (stored tasks (addTask tasks d n₁ n₂)) cmds
  | tasks, .delete idStr :: cmds =>
    (match Atoi idStr with
      | none => true
      | some i =>
        !tasks.any (fun u => decide (u.ID = i)) || tasks.any (fun u => decide (i < u.ID)))
    && noDeleteOfMax (stored tasks (deleteTask tasks idStr)) cmds

/-- Every `add` of the sequence runs on a collection whose ids are all below
the largest machine integer. -/
def idsBelowMaxInt : List Task → List Command → Bool
  | _, [] => true
  | tasks, .add d n₁ n₂ :: cmds =>
    tasks.all (fun u => decide (u.ID < maxInt))
    && idsBelowMaxInt (stored tasks (addTask tasks d n₁ n₂)) cmds
  | tasks, .delete idStr :: cmds =>
    idsBelowMaxInt (stored tasks (deleteTask tasks idStr)) cmds

/-! ## The store: slices, JSON documents, the file -/

/-- A Go slice of tasks: the nil slice, or a slice with its elements (possibly
none, as `[]Task{}`). -/
inductive Slice where
  | nil
  | of (elems : List Task)
deriving DecidableEq, Repr

/-- The elements of a slice, in order; what `range` and `len` see. -/
def Slice.toList : Slice → List Task
  | .nil => []
  | .of elems => elems

/-- Go's `append(s, task)`: the result is never the nil slice. -/
def Slice.append (s : Slice) (task : Task) : Slice :=
  .of (s.toList ++ [task])

/-- A JSON document. A number is kept as its integer value when its literal is
an integer literal, and as its literal otherwise. -/
inductive Json where
  | null
  | bool (b : Bool)
  | int (n : Int)
  | real (literal : String)
  | str (s : String)
  | arr (elems : List Json)
  | obj (members : List (String × Json))

/-- The text form of a `time.Time` in JSON.  `format` is `MarshalJSON`: the
RFC 3339 text of the instant, without the quotes, or `none` when `MarshalJSON`
returns an error, which it does for a year outside 0 to 9999.  `parse` is
`UnmarshalJSON` on a JSON string.  `parse_format` says that a text which
`MarshalJSON` produced is read back as the instant it was produced from. -/
structure TimeCodec where
  format : Time → Option String
  parse : String → Option Time
  parse_format : ∀ (t : Time) (text : String), format t = some text → parse text = some t

/-- The fields of the `Task` struct, in the order of their declaration. -/
inductive Field where
  | ID
  | Description
  | Status
  | CreatedAt
  | UpdateAt
deriving DecidableEq, Repr

/-- The `json:"..."` tag of a field (lines 68-72). -/
def Field.tag : Field → String
  | .ID => "id"
  | .Description => "description"
  | .Status => "status"
  | .CreatedAt => "createdAt"
  | .UpdateAt => "updateAt"

/-- The fields of `Task` that `encoding/json` sees. -/
def taskFields : List Field :=
  [.ID, .Description, .Status, .CreatedAt, .UpdateAt]

/-- The case folding `encoding/json` applies to a key before it looks for a
field: ASCII letters go to upper case, and the two other characters whose upper
case is an ASCII letter (U+017F and U+212A) go to `S` and `K`.  Other
characters keep a value that no tag contains. -/
def foldRune (c : Char) : Char :=
  if 97 ≤ c.toNat ∧ c.toNat ≤ 122 then Char.ofNat (c.toNat - 32)
  else if c.toNat = 0x17F then 'S'
  else if c.toNat = 0x212A then 'K'
  else c

/-- The folded form of a key or tag. -/
def foldName (name : String) : String :=
  String.mk (name.toList.map foldRune)

/-- The field `json.Unmarshal` stores the member with key `key` in: the field
whose tag is the key, else the field whose tag equals the key up to case, else
none (the member is skipped). -/
def findField (key : String) : Option Field :=
  match taskFields.find? (fun f => decide (f.tag = key)) with
  | some f => some f
  | none => taskFields.find? (fun f => decide (foldName f.tag = foldName key))

/-- The JSON value `json.Marshal` writes for one field of a task; the error
of `MarshalJSON` for a timestamp it does not accept. -/
def encodeField (codec : TimeCodec) (task : Task) : Field → Except Err Json
  | .ID => .ok (.int task.ID)
  | .Description => .ok (.str task.Description)
  | .Status => .ok (.str task.Status)
  | .CreatedAt =>
    match codec.format task.CreatedAt with
    | some text => .ok (.str text)
    | none => .error .marshal
  | .UpdateAt =>
    match codec.format task.UpdateAt with
    | some text => .ok (.str text)
    | none => .error .marshal

/-- The members `json.Marshal` writes for the given fields of a task: one
member per field, in order, under the tag of the field. -/
def encodeMembers (codec : TimeCodec) (task : Task) :
    List Field → Except Err (List (String × Json))
  | [] => .ok []
  | f :: fs =>
    match encodeField codec task f with
    | .error err => .error err
    | .ok value =>
      match encodeMembers codec task fs with
      | .error err => .error err
      | .ok members => .ok ((f.tag, value) :: members)

/-- The JSON object `json.Marshal` writes for a task. -/
def encodeTask (codec : TimeCodec) (task : Task) : Except Err Json :=
  match encodeMembers codec task taskFields with
  | .error err => .error err
  | .ok members => .ok (.obj members)

/-- The JSON values `json.Marshal` writes for the elements of a slice. -/
def encodeTasks (codec : TimeCodec) : List Task → Except Err (List Json)
  | [] => .ok []
  | task :: tasks =>
    match encodeTask codec task with
    | .error err => .error err
    | .ok doc =>
      match encodeTasks codec tasks with
      | .error err => .error err
      | .ok docs => .ok (doc :: docs)

/-- The call `json.MarshalIndent(tasks, "", "  ")` (line 97): `null` for the
nil slice, an array with one object per task otherwise, or the error of the
first timestamp that `MarshalJSON` does not accept. -/
def jsonMarshal (codec : TimeCodec) : Slice → Except Err Json
  | .nil => .ok .null
  | .of elems =>
    match encodeTasks codec elems with
    | .error err => .error err
    | .ok docs => .ok (.arr docs)

/-- How `json.Unmarshal` stores a JSON value in a field of a task: `null`
leaves the field as it is, a value of the kind of the field is stored, and any
other value is an error. -/
def decodeField (codec : TimeCodec) (task : Task) : Field → Json → Except Err Task
  | _, .null => .ok task
  | .ID, .int n =>
    if minInt ≤ n ∧ n ≤ maxInt then .ok { task with ID := n } else .error .unmarshal
  | .Description, .str s => .ok { task with Description := s }
  | .Status, .str s => .ok { task with Status := s }
  | .CreatedAt, .str s =>
    match codec.parse s with
    | some t => .ok { task with CreatedAt := t }
    | none => .error .unmarshal
  | .UpdateAt, .str s =>
    match codec.parse s with
    | some t => .ok { task with UpdateAt := t }
    | none => .error .unmarshal
  | _, _ => .error .unmarshal

/-- How `json.Unmarshal` stores the members of a JSON object in a task, one
after the other; a member whose key names no field is skipped. -/
def decodeMembers (codec : TimeCodec) : Task → List (String × Json) → Except Err Task
  | task, [] => .ok task
  | task, (key, value) :: rest =>
    match findField key with
    | none => decodeMembers codec task rest
    | some f =>
      match decodeField codec task f value with
      | .error err => .error err
      | .ok task₁ => decodeMembers codec task₁ rest

/-- The zero value of `time.Time`: the first instant of year 1, in UTC. -/
def zeroTime : Time := ⟨-62135596800000000000⟩

/-- The zero value of `Task`. -/
def zeroTask : Task :=
  { ID := 0, Description := "", Status := "", CreatedAt := zeroTime, UpdateAt := zeroTime }

/-- How `json.Unmarshal` reads one element of the array into a new `Task`. -/
def decodeTask (codec : TimeCodec) : Json → Except Err Task
  | .null => .ok zeroTask
  | .obj members => decodeMembers codec zeroTask members
  | _ => .error .unmarshal

/-- How `json.Unmarshal` reads the elements of the array, in order. -/
def decodeTasks (codec : TimeCodec) : List Json → Except Err (List Task)
  | [] => .ok []
  | j :: js =>
    match decodeTask codec j with
    | .error err => .error err
    | .ok task =>
      match decodeTasks codec js with
      | .error err => .error err
      | .ok tasks => .ok (task :: tasks)

/-- The call `json.Unmarshal(data, &tasks)` on a nil `tasks` (lines 88-89), for
data that spell the document: `null` leaves the slice nil, an array gives a
slice with the decoded elements, any other document is an error. -/
def jsonUnmarshal (codec : TimeCodec) : Json → Except Err Slice
  | .null => .ok .nil
  | .arr elems =>
    match decodeTasks codec elems with
    | .error err => .error err
    | .ok tasks => .ok (.of tasks)
  | _ => .error .unmarshal

/-- The bytes of a file, up to what `readTasksFromFile` can tell about them:
no byte at all, the text of a JSON document, or bytes that are not JSON. -/
inductive FileData where
  | zeroBytes
  | json (doc : Json)
  | invalid

/-- The outcome of `os.ReadFile(filename)`. -/
inductive FileState where
  /-- An error for which `os.IsNotExist` holds. -/
  | missing
  /-- Any other error. -/
  | unreadable
  /-- The bytes of the file. -/
  | content (data : FileData)

/-- The function `readTasksFromFile` (lines 75-94). -/
def readTasksFromFile (codec : TimeCodec) : FileState → Except Err Slice
  | .missing => .ok (.of [])
  | .unreadable => .error .readFile
  | .content .zeroBytes => .ok (.of [])
  | .content .invalid => .error .unmarshal
  | .content (.json doc) => jsonUnmarshal codec doc

/-- The function `writeTasksToFile` (lines 96-108): the error of
`json.MarshalIndent`, returned on line 99 before anything is written, or the
bytes handed to `os.WriteFile`, which make the content of the file when the
write succeeds. -/
def writeTasksToFile (codec : TimeCodec) (tasks : Slice) : Except Err FileData :=
  match jsonMarshal codec tasks with
  | .error err => .error err
  | .ok doc => .ok (.json doc)

/-- The loop of `deleteTask` (lines 205-214) with `newTasks` as a Go slice. -/
def deleteLoopSlice (ID : Int) : List Task → Slice × Bool → Slice × Bool
  | [], acc => acc
  | task :: rest, (newTasks, found) =>
    if task.ID ≠ ID then deleteLoopSlice ID rest (newTasks.append task, found)
    else deleteLoopSlice ID rest (newTasks, true)

/-- The handler `deleteTask` (lines 195-222) after the read, with the slice it
passes to `writeTasksToFile`: `newTasks` is declared without a value on line
205, so it is the nil slice until the first `append`. -/
def deleteTaskSlice (tasks : List Task) (idStr : String) :
    Except Err (List String × Slice) :=
  match Atoi idStr with
  | none => .error (.incorrectID idStr)
  | some ID =>
    let (newTasks, found) := deleteLoopSlice ID tasks (.nil, false)
    if !found then .error (.notFound ID)
    else .ok (["The task " ++ toString ID ++ " has been removed.\n"], newTasks)

/-- A clock reading used in the examples. -/
def t₀ : Time := ⟨1700000000000000000⟩

/-- A later clock reading used in the examples. -/
def t₁ : Time := ⟨1700000060000000000⟩

/-- A task with the given id, description and status, created at `t₀`. -/
def mkTask (id : Int) (description status : String) : Task :=
  { ID := id, Description := description, Status := status, CreatedAt := t₀, UpdateAt := t₀ }

/-- A collection of three tasks with the ids 1, 2 and 3. -/
def sampleTasks : List Task :=
  [mkTask 1 "buy milk" "todo", mkTask 2 "walk dog" "in-progress", mkTask 3 "clean" "done"]

/-- A collection in which two tasks share the id 2. -/
def duplicateTasks : List Task :=
  [mkTask 1 "buy milk" "todo", mkTask 2 "walk dog" "todo", mkTask 2 "clean" "in-progress"]

/-- The example of the specification: two adds, a delete of id 1, one more add. -/
def sampleCommands : List Command :=
  [.add "buy milk" t₀ t₀, .add "walk dog" t₀ t₀, .delete "1", .add "clean" t₁ t₁]

/-! ## Lemmas on the loops -/

/-- Inside the 64-bit range `wrapInt` changes nothing. -/
theorem wrapInt_of_inRange (x : Int) (hlo : minInt ≤ x) (hhi : x ≤ maxInt) :
    wrapInt x = x := by
  unfold wrapInt
  unfold minInt at hlo
  unfold maxInt at hhi
  norm_num at hlo hhi ⊢
  omega

/-- The loop of `addTask` never goes below its initial value. -/
theorem le_maxIDLoop (ts : List Task) (m : Int) : m ≤ maxIDLoop m ts := by
  induction ts generalizing m with
  | nil => simp [maxIDLoop]
  | cons a rest ih =>
    simp only [maxIDLoop]
    split
    · exact le_trans (by omega) (ih a.ID)
    · exact ih m

/-- The loop of `addTask` ends at or above every id of the collection. -/
theorem mem_le_maxIDLoop (ts : List Task) (m : Int) (t : Task) (ht : t ∈ ts) :
    t.ID ≤ maxIDLoop m ts := by
  induction ts generalizing m with
  | nil => simp at ht
  | cons a rest ih =>
    simp only [maxIDLoop]
    rcases List.mem_cons.mp ht with rfl | h
    · split
      · exact le_maxIDLoop rest t.ID
      · exact le_trans (by omega) (le_maxIDLoop rest m)
    · exact ih _ h

/-- The loop of `addTask` ends at its initial value or at an id of the
collection. -/
theorem maxIDLoop_eq_init_or_mem (ts : List Task) (m : Int) :
    maxIDLoop m ts = m ∨ ∃ t ∈ ts, t.ID = maxIDLoop m ts := by
  induction ts generalizing m with
  | nil => simp [maxIDLoop]
  | cons a rest ih =>
    simp only [maxIDLoop]
    split
    · rcases ih a.ID with h | ⟨t, ht, h⟩
      · exact Or.inr ⟨a, List.mem_cons_self _ _, h.symm⟩
      · exact Or.inr ⟨t, List.mem_cons_of_mem _ ht, h⟩
    · rcases ih m with h | ⟨t, ht, h⟩
      · exact Or.inl h
      · exact Or.inr ⟨t, List.mem_cons_of_mem _ ht, h⟩

/-- A bound on the initial value and on every id bounds the result of the
loop of `addTask`. -/
theorem maxIDLoop_le_of_forall (ts : List Task) (m b : Int) (hm : m ≤ b)
    (h : ∀ t ∈ ts, t.ID ≤ b) : maxIDLoop m ts ≤ b := by
  rcases maxIDLoop_eq_init_or_mem ts m with h1 | ⟨t, ht, h1⟩
  · omega
  · rw [← h1]; exact h t ht

/-- While every id is below `maxInt`, the id of the new task is the result of
the loop plus one, without wrap-around. -/
theorem newTask_ID_of_lt (ts : List Task) (d : String) (n₁ n₂ : Time)
    (hlt : ∀ t ∈ ts, t.ID < maxInt) :
    (newTask ts d n₁ n₂).ID = maxIDLoop 0 ts + 1 := by
  have h0 : (0 : Int) ≤ maxIDLoop 0 ts := le_maxIDLoop ts 0
  have h1 : maxIDLoop 0 ts ≤ maxInt - 1 :=
    maxIDLoop_le_of_forall ts 0 (maxInt - 1) (by unfold maxInt; norm_num)
      (fun t ht => by have := hlt t ht; omega)
  show wrapInt (maxIDLoop 0 ts + 1) = _
  apply wrapInt_of_inRange
  · unfold minInt; norm_num; omega
  · omega

/-- The loop of `listTasks` distributes over a concatenation. -/
theorem listLoop_append (f : String) (xs ys : List Task) :
    listLoop f (xs ++ ys) = listLoop f xs ++ listLoop f ys := by
  induction xs with
  | nil => rfl
  | cons a rest ih =>
    simp only [List.cons_append, listLoop]
    split <;> simp [ih]

/-- A task that passes the filter has its line in the output of the loop of
`listTasks`. -/
theorem mem_listLoop (f : String) (ts : List Task) (t : Task) (ht : t ∈ ts)
    (hf : f = "all" ∨ t.Status = f) : taskLine t ∈ listLoop f ts := by
  induction ts with
  | nil => simp at ht
  | cons a rest ih =>
    simp only [listLoop]
    rcases List.mem_cons.mp ht with rfl | h
    · simp [hf]
    · split
      · exact List.mem_cons_of_mem _ (ih h)
      · exact ih h

/-- An index below the length is what a successful lookup means. -/
theorem lt_length_of_getElem? (ts : List Task) (j : Nat) (t : Task)
    (hj : ts[j]? = some t) : j < ts.length := by
  rcases Nat.lt_or_ge j ts.length with h | h
  · exact h
  · rw [List.getElem?_eq_none h] at hj; cases hj

/-- A successful search loop returns the position of the first task with the
id, counted from the start index. -/
theorem findIndexLoop_some (id : Int) (ts : List Task) (n k : Nat)
    (h : findIndexLoop id ts n = some k) :
    ∃ j t, k = n + j ∧ ts[j]? = some t ∧ t.ID = id
      ∧ ∀ j2 t2, j2 < j → ts[j2]? = some t2 → t2.ID ≠ id := by
  induction ts generalizing n with
  | nil => simp [findIndexLoop] at h
  | cons a rest ih =>
    simp only [findIndexLoop] at h
    split at h
    · rename_i ha
      refine ⟨0, a, ?_, by simp, ha, ?_⟩
      · simpa using h.symm
      · intro j2 t2 hj; omega
    · rename_i ha
      obtain ⟨j, t, hk, hj, ht, hbefore⟩ := ih (n + 1) h
      refine ⟨j + 1, t, by omega, by simpa using hj, ht, ?_⟩
      intro j2 t2 hlt hget
      cases j2 with
      | zero =>
        simp at hget
        subst hget
        exact ha
      | succ j3 =>
        simp at hget
        exact hbefore j3 t2 (by omega) hget

/-- The search loop finds nothing exactly when no task has the id. -/
theorem findIndexLoop_none (id : Int) (ts : List Task) (n : Nat) :
    findIndexLoop id ts n = none ↔ ∀ t ∈ ts, t.ID ≠ id := by
  induction ts generalizing n with
  | nil => simp [findIndexLoop]
  | cons a rest ih =>
    simp only [findIndexLoop]
    split
    · rename_i ha
      simp [ha]
    · rename_i ha
      rw [ih (n + 1)]
      simp [ha]

/-- When the id is present, `findTaskIndexByID` returns the position of its
first holder. -/
theorem findTaskIndexByID_of_mem (ts : List Task) (idStr : String) (i : Int)
    (hid : Atoi idStr = some i) (hmem : ∃ t ∈ ts, t.ID = i) :
    ∃ j t, findTaskIndexByID ts idStr = .ok j ∧ ts[j]? = some t ∧ t.ID = i
      ∧ ∀ j2 t2, j2 < j → ts[j2]? = some t2 → t2.ID ≠ i := by
  cases hf : findIndexLoop i ts 0 with
  | none =>
    obtain ⟨t, ht, hti⟩ := hmem
    exact absurd hti ((findIndexLoop_none i ts 0).mp hf t ht)
  | some k =>
    obtain ⟨j, t, hk, hj, ht, hb⟩ := findIndexLoop_some i ts 0 k hf
    refine ⟨j, t, ?_, hj, ht, hb⟩
    simp [findTaskIndexByID, hid, hf, hk]

/-- When the id is absent, `findTaskIndexByID` returns the not-found error. -/
theorem findTaskIndexByID_of_not_mem (ts : List Task) (idStr : String) (i : Int)
    (hid : Atoi idStr = some i) (hno : ∀ t ∈ ts, t.ID ≠ i) :
    findTaskIndexByID ts idStr = .error (.notFound i) := by
  simp [findTaskIndexByID, hid, (findIndexLoop_none i ts 0).mpr hno]

/-- A successful `findTaskIndexByID` returns a valid index. -/
theorem findTaskIndexByID_ok (ts : List Task) (idStr : String) (j : Nat)
    (h : findTaskIndexByID ts idStr = .ok j) : ∃ t, ts[j]? = some t := by
  unfold findTaskIndexByID at h
  cases hA : Atoi idStr with
  | none => simp [hA] at h
  | some i =>
    cases hf : findIndexLoop i ts 0 with
    | none => simp [hA, hf] at h
    | some k =>
      obtain ⟨j2, t, hk, hj, -, -⟩ := findIndexLoop_some i ts 0 k hf
      simp only [hA, hf] at h
      have hkj : k = j := by injection h
      exact ⟨t, by rw [← hkj, hk, Nat.zero_add]; exact hj⟩

/-- Overwriting a task by one with the same id leaves the sequence of ids as
it was. -/
theorem map_ID_set (ts : List Task) (j : Nat) (t u : Task) (hj : ts[j]? = some t)
    (hu : u.ID = t.ID) : (ts.set j u).map Task.ID = ts.map Task.ID := by
  apply List.ext_getElem?
  intro k
  simp only [List.getElem?_map, List.getElem?_set]
  by_cases hjk : j = k
  · subst hjk
    simp [lt_length_of_getElem? ts j t hj, hj, hu]
  · simp [hjk]

/-- With unique ids, two positions holding the same id are the same position. -/
theorem eq_of_nodup_ids (ts : List Task) (j k : Nat) (t u : Task)
    (hnd : (ts.map Task.ID).Nodup) (hj : ts[j]? = some t) (hk : ts[k]? = some u)
    (hid : t.ID = u.ID) : j = k := by
  by_contra hne
  have hne2 := List.nodup_iff_getElem?_ne_getElem?.mp hnd
  have hj2 : j < (ts.map Task.ID).length := by
    simpa using lt_length_of_getElem? ts j t hj
  have hk2 : k < (ts.map Task.ID).length := by
    simpa using lt_length_of_getElem? ts k u hk
  rcases Nat.lt_or_gt_of_ne hne with h | h
  · exact hne2 j k h hk2 (by simp [hj, hk, hid])
  · exact hne2 k j h hj2 (by simp [hj, hk, hid])

/-- The loop of `deleteTask` appends the tasks with another id to `newTasks`
and raises `found` when some task has the id. -/
theorem deleteLoop_eq (ID : Int) (ts acc : List Task) (found : Bool) :
    deleteLoop ID ts (acc, found)
      = (acc ++ ts.filter (fun t => decide (t.ID ≠ ID)),
         found || ts.any (fun t => decide (t.ID = ID))) := by
  induction ts generalizing acc found with
  | nil => simp [deleteLoop]
  | cons a rest ih =>
    simp only [deleteLoop]
    split
    · rename_i ha
      rw [ih]
      simp [ha]
    · rename_i ha
      have ha2 : a.ID = ID := by simpa using ha
      rw [ih]
      simp [ha2]

/-- When the id is present, `deleteTask` writes the tasks with another id. -/
theorem deleteTask_of_mem (ts : List Task) (idStr : String) (i : Int)
    (hid : Atoi idStr = some i) (hmem : ∃ t ∈ ts, t.ID = i) :
    deleteTask ts idStr
      = .ok { stdout := ["The task " ++ toString i ++ " has been removed.\n"]
              written := some (ts.filter (fun t => decide (t.ID ≠ i))) } := by
  have hany : ts.any (fun t => decide (t.ID = i)) = true := by
    simpa using hmem
  simp [deleteTask, hid, deleteLoop_eq, hany]

/-- When the id is absent, `deleteTask` returns the not-found error. -/
theorem deleteTask_of_not_mem (ts : List Task) (idStr : String) (i : Int)
    (hid : Atoi idStr = some i) (hno : ∀ t ∈ ts, t.ID ≠ i) :
    deleteTask ts idStr = .error (.notFound i) := by
  have hany : ts.any (fun t => decide (t.ID = i)) = false := by
    simpa using hno
  simp [deleteTask, hid, deleteLoop_eq, hany]

/-- With unique ids, dropping the tasks with a present id drops one task. -/
theorem length_filter_ne_of_nodup (ts : List Task) (i : Int)
    (hnd : (ts.map Task.ID).Nodup) (hmem : ∃ t ∈ ts, t.ID = i) :
    (ts.filter (fun t => decide (t.ID ≠ i))).length + 1 = ts.length := by
  induction ts with
  | nil => simp at hmem
  | cons a rest ih =>
    rw [List.map_cons, List.nodup_cons] at hnd
    by_cases ha : a.ID = i
    · have hrest : ∀ t ∈ rest, t.ID ≠ i := by
        intro t ht hti
        exact hnd.1 (List.mem_map.mpr ⟨t, ht, by rw [hti, ha]⟩)
      have hfil : rest.filter (fun t => decide (t.ID ≠ i)) = rest := by
        rw [List.filter_eq_self]
        intro t ht
        simpa using hrest t ht
      rw [List.filter_cons, if_neg (by simp [ha]), hfil]
      rfl
    · have hmem2 : ∃ t ∈ rest, t.ID = i := by
        obtain ⟨t, ht, hti⟩ := hmem
        rcases List.mem_cons.mp ht with rfl | h
        · exact absurd hti ha
        · exact ⟨t, h, hti⟩
      rw [List.filter_cons, if_pos (by simp [ha]), List.length_cons, ih hnd.2 hmem2]
      rfl

/-- A value `Atoi` returns fits the 64-bit `int`. -/
theorem Atoi_inRange (s : String) (v : Int) (h : Atoi s = some v) :
    minInt ≤ v ∧ v ≤ maxInt := by
  unfold Atoi String.toList at h
  cases hs : s.data with
  | nil => simp [hs] at h
  | cons c cs =>
    simp only [hs] at h
    generalize (if c = '-' ∨ c = '+' then cs else c :: cs) = ds at h
    by_cases hds : ds = []
    · rw [if_pos hds] at h
      cases h
    · rw [if_neg hds] at h
      cases hp : parseDigits ds 0 with
      | none =>
        rw [hp] at h
        cases h
      | some n =>
        rw [hp] at h
        simp only at h
        generalize (if c = '-' then -(n : Int) else (n : Int)) = w at h
        by_cases hr : minInt ≤ w ∧ w ≤ maxInt
        · rw [if_pos hr] at h
          have hv : w = v := Option.some.inj h
          rw [← hv]
          exact hr
        · rw [if_neg hr] at h
          cases h

/-- While the ids are positive and below `maxInt`, the id of the new task is
1 for the empty collection and otherwise the largest id plus one. -/
theorem newTask_ID_max_plus_one (tasks : List Task) (description : String)
    (now₁ now₂ : Time) (hpos : ∀ t ∈ tasks, 0 < t.ID)
    (hlt : ∀ t ∈ tasks, t.ID < maxInt) :
    (tasks = [] → (newTask tasks description now₁ now₂).ID = 1)
    ∧ (∀ m : Int, (∃ u ∈ tasks, u.ID = m) → (∀ u ∈ tasks, u.ID ≤ m) →
        (newTask tasks description now₁ now₂).ID = m + 1) := by
  refine ⟨?_, ?_⟩
  · intro h
    subst h
    rfl
  · rintro m ⟨u, hu, rfl⟩ hmax
    rw [newTask_ID_of_lt tasks description now₁ now₂ hlt]
    have h1 : u.ID ≤ maxIDLoop 0 tasks := mem_le_maxIDLoop tasks 0 u hu
    have h2 : maxIDLoop 0 tasks ≤ u.ID :=
      maxIDLoop_le_of_forall tasks 0 u.ID (le_of_lt (hpos u hu)) hmax
    omega

/-- A successful `updateTask` keeps the sequence of ids. -/
theorem updateTask_map_ID (ts : List Task) (idStr d : String) (now : Time)
    (out : List String) (saved : List Task)
    (h : updateTask ts idStr d now = .ok ⟨out, some saved⟩) :
    saved.map Task.ID = ts.map Task.ID := by
  unfold updateTask at h
  cases hf : findTaskIndexByID ts idStr with
  | error e => simp [hf] at h
  | ok j =>
    obtain ⟨t, hj⟩ := findTaskIndexByID_ok ts idStr j hf
    simp only [hf, hj] at h
    injection h with h
    injection h with _ h
    injection h with h
    rw [← h]
    exact map_ID_set ts j t _ hj rfl

/-- A successful `updateTaskStatus` keeps the sequence of ids. -/
theorem updateTaskStatus_map_ID (ts : List Task) (idStr status : String) (now : Time)
    (out : List String) (saved : List Task)
    (h : updateTaskStatus ts idStr status now = .ok ⟨out, some saved⟩) :
    saved.map Task.ID = ts.map Task.ID := by
  unfold updateTaskStatus at h
  cases hf : findTaskIndexByID ts idStr with
  | error e => simp [hf] at h
  | ok j =>
    obtain ⟨t, hj⟩ := findTaskIndexByID_ok ts idStr j hf
    simp only [hf, hj] at h
    injection h with h
    injection h with _ h
    injection h with h
    rw [← h]
    exact map_ID_set ts j t _ hj rfl

/-- What a successful `deleteTask` writes is a filter of the collection. -/
theorem deleteTask_ok (ts : List Task) (idStr : String) (out : List String)
    (saved : List Task) (h : deleteTask ts idStr = .ok ⟨out, some saved⟩) :
    ∃ i, Atoi idStr = some i ∧ (∃ t ∈ ts, t.ID = i)
      ∧ saved = ts.filter (fun t => decide (t.ID ≠ i)) := by
  cases hA : Atoi idStr with
  | none => simp [deleteTask, hA] at h
  | some i =>
    by_cases hmem : ∃ t ∈ ts, t.ID = i
    · rw [deleteTask_of_mem ts idStr i hA hmem] at h
      injection h with h
      injection h with _ h
      injection h with h
      exact ⟨i, rfl, hmem, h.symm⟩
    · rw [deleteTask_of_not_mem ts idStr i hA (by simpa using hmem)] at h
      cases h

/-- After `addTask` the file holds the collection with the new task appended. -/
theorem stored_addTask (ts : List Task) (d : String) (n₁ n₂ : Time) :
    stored ts (addTask ts d n₁ n₂) = ts ++ [newTask ts d n₁ n₂] := rfl

/-- After `deleteTask` the file holds the old collection, or the old
collection without the tasks that have the id. -/
theorem stored_deleteTask (ts : List Task) (idStr : String) :
    stored ts (deleteTask ts idStr) = ts
    ∨ ∃ i, Atoi idStr = some i ∧ (∃ t ∈ ts, t.ID = i)
        ∧ stored ts (deleteTask ts idStr) = ts.filter (fun t => decide (t.ID ≠ i)) := by
  cases hA : Atoi idStr with
  | none => left; simp [deleteTask, hA, stored]
  | some i =>
    by_cases hmem : ∃ t ∈ ts, t.ID = i
    · right
      exact ⟨i, rfl, hmem, by rw [deleteTask_of_mem ts idStr i hA hmem]; rfl⟩
    · left
      rw [deleteTask_of_not_mem ts idStr i hA (by simpa using hmem)]
      rfl

/-- Dropping the tasks with an id below some other id of the collection does
not lower the result of the loop of `addTask`. -/
theorem maxIDLoop_filter_ge (ts : List Task) (i : Int) (hbig : ∃ u ∈ ts, i < u.ID) :
    maxIDLoop 0 ts ≤ maxIDLoop 0 (ts.filter (fun t => decide (t.ID ≠ i))) := by
  rcases maxIDLoop_eq_init_or_mem ts 0 with h | ⟨t, ht, h⟩
  · rw [h]; exact le_maxIDLoop _ 0
  · rw [← h]
    apply mem_le_maxIDLoop
    rw [List.mem_filter]
    refine ⟨ht, ?_⟩
    obtain ⟨u, hu, hiu⟩ := hbig
    have := mem_le_maxIDLoop ts 0 u hu
    simp only [decide_eq_true_eq]
    omega

/-- Under the two conditions on a sequence of invocations, every id given out
is above the result of the loop of `addTask` on the starting collection, and
the ids given out increase. -/
theorem assignedIDs_increasing_aux (cmds : List Command) :
    ∀ ts : List Task, noDeleteOfMax ts cmds = true → idsBelowMaxInt ts cmds = true →
      (∀ x ∈ assignedIDs ts cmds, maxIDLoop 0 ts < x)
      ∧ (assignedIDs ts cmds).Pairwise (fun a b => a < b) := by
  induction cmds with
  | nil => intro ts _ _; simp [assignedIDs]
  | cons c cmds ih =>
    intro ts hno hlt
    cases c with
    | add d n₁ n₂ =>
      simp only [noDeleteOfMax, idsBelowMaxInt, Bool.and_eq_true, List.all_eq_true,
        decide_eq_true_eq] at hno hlt
      obtain ⟨hbelow, hlt2⟩ := hlt
      have hid := newTask_ID_of_lt ts d n₁ n₂ hbelow
      obtain ⟨h1, h2⟩ := ih _ hno hlt2
      have hmax : maxIDLoop 0 ts + 1 ≤ maxIDLoop 0 (stored ts (addTask ts d n₁ n₂)) := by
        rw [stored_addTask, ← hid]
        exact mem_le_maxIDLoop _ 0 _ (by simp)
      simp only [assignedIDs]
      refine ⟨?_, ?_⟩
      · intro x hx
        rcases List.mem_cons.mp hx with rfl | hx
        · omega
        · have := h1 x hx
          omega
      · rw [List.pairwise_cons]
        refine ⟨?_, h2⟩
        intro x hx
        have := h1 x hx
        omega
    | delete idStr =>
      simp only [noDeleteOfMax, idsBelowMaxInt, Bool.and_eq_true] at hno hlt
      obtain ⟨hdel, hno2⟩ := hno
      obtain ⟨h1, h2⟩ := ih _ hno2 hlt
      simp only [assignedIDs]
      refine ⟨?_, h2⟩
      intro x hx
      have hx1 := h1 x hx
      rcases stored_deleteTask ts idStr with hs | ⟨i, hA, hmem, hs⟩
      · rw [hs] at hx1; exact hx1
      · rw [hs] at hx1
        rw [hA] at hdel
        simp only [Bool.or_eq_true, Bool.not_eq_true', List.any_eq_true, decide_eq_true_eq] at hdel
        have hbig : ∃ u ∈ ts, i < u.ID := by
          rcases hdel with hd | hd
          · exfalso
            have : ts.any (fun u => decide (u.ID = i)) = true := by simpa using hmem
            rw [this] at hd
            cases hd
          · exact hd
        have := maxIDLoop_filter_ge ts i hbig
        omega

/-- When the id is present, `updateTask` overwrites the first task holding it. -/
theorem updateTask_of_mem (ts : List Task) (idStr d : String) (i : Int) (now : Time)
    (hid : Atoi idStr = some i) (hmem : ∃ t ∈ ts, t.ID = i) :
    ∃ j tj, ts[j]? = some tj ∧ tj.ID = i
      ∧ (∀ j2 t2, j2 < j → ts[j2]? = some t2 → t2.ID ≠ i)
      ∧ updateTask ts idStr d now
          = .ok { stdout := ["The task " ++ toString i ++ " has been updated.\n"]
                  written := some (ts.set j { tj with Description := d, UpdateAt := now }) } := by
  obtain ⟨j, tj, hfind, hj, htj, hfirst⟩ := findTaskIndexByID_of_mem ts idStr i hid hmem
  refine ⟨j, tj, hj, htj, hfirst, ?_⟩
  simp [updateTask, hfind, hj, htj]

/-- When the id is present, `updateTaskStatus` overwrites the first task
holding it. -/
theorem updateTaskStatus_of_mem (ts : List Task) (idStr status : String) (i : Int) (now : Time)
    (hid : Atoi idStr = some i) (hmem : ∃ t ∈ ts, t.ID = i) :
    ∃ j tj, ts[j]? = some tj ∧ tj.ID = i
      ∧ (∀ j2 t2, j2 < j → ts[j2]? = some t2 → t2.ID ≠ i)
      ∧ updateTaskStatus ts idStr status now
          = .ok { stdout := ["Status of the task " ++ toString i
                                ++ " has been changed to " ++ status ++ ".\n"]
                  written := some (ts.set j { tj with UpdateAt := now, Status := "done" }) } := by
  obtain ⟨j, tj, hfind, hj, htj, hfirst⟩ := findTaskIndexByID_of_mem ts idStr i hid hmem
  refine ⟨j, tj, hj, htj, hfirst, ?_⟩
  simp [updateTaskStatus, hfind, hj, htj]

/-- When the id is absent, `updateTask` returns the not-found error. -/
theorem updateTask_of_not_mem (ts : List Task) (idStr d : String) (i : Int) (now : Time)
    (hid : Atoi idStr = some i) (hno : ∀ t ∈ ts, t.ID ≠ i) :
    updateTask ts idStr d now = .error (.notFound i) := by
  simp [updateTask, findTaskIndexByID_of_not_mem ts idStr i hid hno]

/-- When the id is absent, `updateTaskStatus` returns the not-found error. -/
theorem updateTaskStatus_of_not_mem (ts : List Task) (idStr status : String) (i : Int)
    (now : Time) (hid : Atoi idStr = some i) (hno : ∀ t ∈ ts, t.ID ≠ i) :
    updateTaskStatus ts idStr status now = .error (.notFound i) := by
  simp [updateTaskStatus, findTaskIndexByID_of_not_mem ts idStr i hid hno]

/-- When the id argument is no integer, `findTaskIndexByID` returns the
incorrect-format error. -/
theorem findTaskIndexByID_of_bad_id (ts : List Task) (idStr : String)
    (hid : Atoi idStr = none) : findTaskIndexByID ts idStr = .error (.incorrectID idStr) := by
  simp [findTaskIndexByID, hid]

/-- Overwriting one position leaves every other position as it was. -/
theorem getElem?_set_of_ne (ts : List Task) (j k : Nat) (u : Task) (h : k ≠ j) :
    (ts.set j u)[k]? = ts[k]? := by
  simp [List.getElem?_set, Ne.symm h]

/-- The loop of `listTasks` prints the lines of the tasks that pass the filter. -/
theorem listLoop_eq_filter (f : String) (ts : List Task) :
    listLoop f ts = (ts.filter (fun t => decide (f = "all" ∨ t.Status = f))).map taskLine := by
  induction ts with
  | nil => rfl
  | cons a rest ih =>
    simp only [listLoop, List.filter_cons]
    by_cases h : f = "all" ∨ a.Status = f
    · simp [h, ih]
    · simp [h, ih]

/-- The loop of `deleteTask` on slices holds the tasks of the loop on lists and
ends with the same `found`. -/
theorem deleteLoopSlice_eq (ID : Int) (ts : List Task) (acc : Slice) (found : Bool) :
    ((deleteLoopSlice ID ts (acc, found)).1.toList, (deleteLoopSlice ID ts (acc, found)).2)
      = deleteLoop ID ts (acc.toList, found) := by
  induction ts generalizing acc found with
  | nil => rfl
  | cons a rest ih =>
    simp only [deleteLoopSlice, deleteLoop]
    split
    · rw [ih]; rfl
    · rw [ih]

/-- The handler `deleteTask` on lists is the handler on slices, with the
elements of the slice it writes. -/
theorem deleteTaskSlice_toList (ts : List Task) (idStr : String) :
    deleteTask ts idStr
      = (match deleteTaskSlice ts idStr with
          | .error err => .error err
          | .ok (out, newTasks) => .ok { stdout := out, written := some newTasks.toList }) := by
  unfold deleteTask deleteTaskSlice
  cases hA : Atoi idStr with
  | none => rfl
  | some i =>
    have h := deleteLoopSlice_eq i ts .nil false
    simp only [Slice.toList] at h
    simp only
    rw [← h]
    cases (deleteLoopSlice i ts (Slice.nil, false)).2 <;> rfl

/-! ## The id given by `add` -/

/-- C1 (amended): for every collection whose task ids are all positive and all
below the largest machine integer, and every description, `addTask` appends a
task whose id is the maximum id of the loaded collection plus one; for the
empty collection the id of the new task is 1. -/
theorem addTask_id_is_max_plus_one (tasks : List Task) (description : String)
    (now₁ now₂ : Time) (hpos : ∀ t ∈ tasks, 0 < t.ID)
    (hlt : ∀ t ∈ tasks, t.ID < maxInt) :
    ∃ t : Task,
      addTask tasks description now₁ now₂
        = .ok { stdout := ["Task has been added (ID: " ++ toString t.ID ++ ")\n"]
                written := some (tasks ++ [t]) }
      ∧ (tasks = [] → t.ID = 1)
      ∧ (∀ m : Int, (∃ u ∈ tasks, u.ID = m) → (∀ u ∈ tasks, u.ID ≤ m) → t.ID = m + 1) := by
  obtain ⟨h1, h2⟩ := newTask_ID_max_plus_one tasks description now₁ now₂ hpos hlt
  exact ⟨newTask tasks description now₁ now₂, rfl, h1, h2⟩

/-- C1, witness: the three sample tasks have the ids 1, 2 and 3, and the task
`addTask` appends to them gets an id that is 3 + 1. -/
theorem addTask_id_is_max_plus_one_witness :
    (∀ t ∈ sampleTasks, 0 < t.ID) ∧ (∀ t ∈ sampleTasks, t.ID < maxInt)
    ∧ ∃ t : Task,
        addTask sampleTasks "pay rent" t₀ t₁
          = .ok { stdout := ["Task has been added (ID: " ++ toString t.ID ++ ")\n"]
                  written := some (sampleTasks ++ [t]) }
        ∧ (sampleTasks = [] → t.ID = 1)
        ∧ (∀ m : Int, (∃ u ∈ sampleTasks, u.ID = m) → (∀ u ∈ sampleTasks, u.ID ≤ m) →
            t.ID = m + 1) :=
  ⟨by decide, by decide,
    addTask_id_is_max_plus_one sampleTasks "pay rent" t₀ t₁ (by decide) (by decide)⟩

/-- C1, counterexample: the collection holding one task with the positive id
9223372036854775807 (the largest `int`) makes `addTask` give the new task the
id -9223372036854775808, which is not the maximum id plus one. -/
theorem addTask_id_wraps_at_maxInt :
    (0 : Int) < (mkTask 9223372036854775807 "buy milk" "todo").ID
    ∧ addTask [mkTask 9223372036854775807 "buy milk" "todo"] "walk dog" t₁ t₁
        = .ok { stdout := ["Task has been added (ID: -9223372036854775808)\n"]
                written := some [mkTask 9223372036854775807 "buy milk" "todo",
                  { ID := -9223372036854775808, Description := "walk dog", Status := "todo",
                    CreatedAt := t₁, UpdateAt := t₁ }] }
    ∧ (-9223372036854775808 : Int) ≠ 9223372036854775807 + 1 := by
  decide

/-! ## `add` appends one task -/

/-- C2: for every collection `ts` and description `d`, `addTask` writes `ts`
followed by one new task with description `d` and status `todo`; the loop of
`list all` on the written collection prints the lines of `ts` followed by one
more line made of the new id, `[todo]` and `d`, and the whole output of
`list all` is those lines between the two separators. -/
theorem addTask_appends_one_todo (ts : List Task) (d : String) (now₁ now₂ : Time) :
    ∃ t : Task,
      addTask ts d now₁ now₂
        = .ok { stdout := ["Task has been added (ID: " ++ toString t.ID ++ ")\n"]
                written := some (ts ++ [t]) }
      ∧ t.Description = d ∧ t.Status = "todo"
      ∧ listLoop "all" (ts ++ [t])
          = listLoop "all" ts ++ [toString t.ID ++ ". [" ++ "todo" ++ "] " ++ d ++ "\n"]
      ∧ (listLoop "all" (ts ++ [t])).length = (listLoop "all" ts).length + 1
      ∧ listTasks (ts ++ [t]) "all"
          = .ok { stdout := [separator] ++ listLoop "all" ts
                              ++ [toString t.ID ++ ". [" ++ "todo" ++ "] " ++ d ++ "\n"]
                              ++ [separator]
                  written := none } := by
  refine ⟨newTask ts d now₁ now₂, rfl, rfl, rfl, ?_, ?_, ?_⟩
  · rw [listLoop_append]; simp [listLoop, taskLine, newTask]
  · rw [listLoop_append]; simp [listLoop]
  · simp [listTasks, listLoop_append, listLoop, taskLine, newTask]

/-! ## Marking a task -/

/-- C3, the code at the failing input: on the collection holding task 1 with
status `todo`, the command `mark-in-progress 1` reports the change to
`in-progress` but writes the task with status `done`; `list in-progress` on
the written collection prints no line and `list done` prints the line of
task 1. -/
theorem markInProgress_writes_done :
    run "mark-in-progress" ["1"] [mkTask 1 "buy milk" "todo"] t₁ t₁
      = .ok { stdout := ["Status of the task 1 has been changed to in-progress.\n"]
              written := some [{ ID := 1, Description := "buy milk", Status := "done",
                                 CreatedAt := t₀, UpdateAt := t₁ }] }
    ∧ listLoop "in-progress"
        [{ ID := 1, Description := "buy milk", Status := "done",
           CreatedAt := t₀, UpdateAt := t₁ }] = []
    ∧ listLoop "done"
        [{ ID := 1, Description := "buy milk", Status := "done",
           CreatedAt := t₀, UpdateAt := t₁ }] = ["1. [done] buy milk\n"] := by
  decide

/-- C4: for every collection containing a task with id `i`, `mark-done i`
runs `updateTaskStatus` with the status `done`, which succeeds and writes a
collection that holds a task with id `i` and status `done`; `list done` on the
written collection prints the line of that task. -/
theorem markDone_is_listed_done (ts : List Task) (idStr : String) (i : Int) (now : Time)
    (hid : Atoi idStr = some i) (hmem : ∃ t ∈ ts, t.ID = i) :
    ∃ (saved : List Task) (t : Task),
      (∀ (more : List String) (now₂ : Time),
        run "mark-done" (idStr :: more) ts now now₂ = updateTaskStatus ts idStr "done" now)
      ∧ updateTaskStatus ts idStr "done" now
          = .ok { stdout := ["Status of the task " ++ toString i
                                ++ " has been changed to " ++ "done" ++ ".\n"]
                  written := some saved }
      ∧ t ∈ saved ∧ t.ID = i ∧ t.Status = "done"
      ∧ taskLine t = toString i ++ ". [" ++ "done" ++ "] " ++ t.Description ++ "\n"
      ∧ taskLine t ∈ listLoop "done" saved
      ∧ ∃ eff, listTasks saved "done" = .ok eff ∧ taskLine t ∈ eff.stdout := by
  obtain ⟨j, tj, hfind, hj, htj, -⟩ := findTaskIndexByID_of_mem ts idStr i hid hmem
  have hlt : j < ts.length := lt_length_of_getElem? ts j tj hj
  have hmem2 : ({ tj with UpdateAt := now, Status := "done" } : Task)
      ∈ ts.set j { tj with UpdateAt := now, Status := "done" } :=
    List.mem_iff_getElem?.mpr ⟨j, by simp [List.getElem?_set, hlt]⟩
  have hline : taskLine { tj with UpdateAt := now, Status := "done" }
      ∈ listLoop "done" (ts.set j { tj with UpdateAt := now, Status := "done" }) :=
    mem_listLoop "done" _ _ hmem2 (Or.inr rfl)
  refine ⟨ts.set j { tj with UpdateAt := now, Status := "done" },
    { tj with UpdateAt := now, Status := "done" }, ?_, ?_, hmem2, htj, rfl, ?_, hline, ?_⟩
  · intro more now₂
    simp [run]
  · simp [updateTaskStatus, hfind, hj, htj]
  · simp [taskLine, htj]
  · refine ⟨_, rfl, ?_⟩
    simp only [List.mem_append]
    exact Or.inl (Or.inl (Or.inl (Or.inr hline)))

/-- C4, witness: task 2 of the sample collection, marked done. -/
theorem markDone_is_listed_done_witness :
    Atoi "2" = some 2 ∧ (∃ t ∈ sampleTasks, t.ID = 2)
    ∧ ∃ (saved : List Task) (t : Task),
        (∀ (more : List String) (now₂ : Time),
          run "mark-done" ("2" :: more) sampleTasks t₁ now₂
            = updateTaskStatus sampleTasks "2" "done" t₁)
        ∧ updateTaskStatus sampleTasks "2" "done" t₁
            = .ok { stdout := ["Status of the task " ++ toString (2 : Int)
                                  ++ " has been changed to " ++ "done" ++ ".\n"]
                    written := some saved }
        ∧ t ∈ saved ∧ t.ID = 2 ∧ t.Status = "done"
        ∧ taskLine t = toString (2 : Int) ++ ". [" ++ "done" ++ "] " ++ t.Description ++ "\n"
        ∧ taskLine t ∈ listLoop "done" saved
        ∧ ∃ eff, listTasks saved "done" = .ok eff ∧ taskLine t ∈ eff.stdout :=
  ⟨by decide, by decide,
    markDone_is_listed_done sampleTasks "2" 2 t₁ (by decide) (by decide)⟩

/-! ## `update` -/

/-- C5: for every collection with unique ids containing a task with id `i`
and every description `d`, `updateTask` succeeds and writes a collection of
the same length in which, position by position, the task with id `i` has
description `d` and update time `now` and keeps its id, status and creation
time, and every other task is the task that was there. -/
theorem updateTask_changes_only_description (ts : List Task) (idStr d : String) (i : Int)
    (now : Time) (hid : Atoi idStr = some i) (hnd : (ts.map Task.ID).Nodup)
    (hmem : ∃ t ∈ ts, t.ID = i) :
    ∃ saved : List Task,
      updateTask ts idStr d now
        = .ok { stdout := ["The task " ++ toString i ++ " has been updated.\n"]
                written := some saved }
      ∧ saved.length = ts.length
      ∧ ∀ (k : Nat) (t : Task), ts[k]? = some t →
          (t.ID = i →
            saved[k]? = some { ID := t.ID, Description := d, Status := t.Status,
                               CreatedAt := t.CreatedAt, UpdateAt := now })
          ∧ (t.ID ≠ i → saved[k]? = some t) := by
  obtain ⟨j, tj, hfind, hj, htj, -⟩ := findTaskIndexByID_of_mem ts idStr i hid hmem
  refine ⟨ts.set j { tj with Description := d, UpdateAt := now }, ?_, by simp, ?_⟩
  · simp [updateTask, hfind, hj, htj]
  · intro k t hk
    constructor
    · intro hti
      have hjk : j = k := eq_of_nodup_ids ts j k tj t hnd hj hk (by rw [htj, hti])
      subst hjk
      have : tj = t := by rw [hj] at hk; exact Option.some.inj hk
      subst this
      simp [List.getElem?_set, lt_length_of_getElem? ts j tj hj]
    · intro hti
      have hjk : j ≠ k := by
        rintro rfl
        rw [hj] at hk
        exact hti (by rw [← Option.some.inj hk]; exact htj)
      simp [List.getElem?_set, hjk, hk]

/-- C5, witness: task 2 of the sample collection gets a new description. -/
theorem updateTask_changes_only_description_witness :
    Atoi "2" = some 2 ∧ (sampleTasks.map Task.ID).Nodup ∧ (∃ t ∈ sampleTasks, t.ID = 2)
    ∧ ∃ saved : List Task,
        updateTask sampleTasks "2" "walk cat" t₁
          = .ok { stdout := ["The task " ++ toString (2 : Int) ++ " has been updated.\n"]
                  written := some saved }
        ∧ saved.length = sampleTasks.length
        ∧ ∀ (k : Nat) (t : Task), sampleTasks[k]? = some t →
            (t.ID = 2 →
              saved[k]? = some { ID := t.ID, Description := "walk cat", Status := t.Status,
                                 CreatedAt := t.CreatedAt, UpdateAt := t₁ })
            ∧ (t.ID ≠ 2 → saved[k]? = some t) :=
  ⟨by decide, by decide, by decide,
    updateTask_changes_only_description sampleTasks "2" "walk cat" 2 t₁
      (by decide) (by decide) (by decide)⟩

/-! ## `delete` -/

/-- C6: for every collection with unique ids containing a task with id `i`,
`deleteTask` succeeds and writes a collection with exactly one task fewer and
no task with id `i`; `deleteTask` with the same id on the written collection
returns the not-found error. -/
theorem deleteTask_removes_one_then_not_found (ts : List Task) (idStr : String) (i : Int)
    (hid : Atoi idStr = some i) (hnd : (ts.map Task.ID).Nodup)
    (hmem : ∃ t ∈ ts, t.ID = i) :
    ∃ saved : List Task,
      deleteTask ts idStr
        = .ok { stdout := ["The task " ++ toString i ++ " has been removed.\n"]
                written := some saved }
      ∧ saved.length + 1 = ts.length
      ∧ (∀ t ∈ saved, t.ID ≠ i)
      ∧ deleteTask saved idStr = .error (.notFound i) := by
  have hno : ∀ t ∈ ts.filter (fun t => decide (t.ID ≠ i)), t.ID ≠ i := by
    intro t ht
    simpa using (List.mem_filter.mp ht).2
  exact ⟨_, deleteTask_of_mem ts idStr i hid hmem,
    length_filter_ne_of_nodup ts i hnd hmem, hno, deleteTask_of_not_mem _ idStr i hid hno⟩

/-- C6, witness: task 2 of the sample collection is deleted, twice. -/
theorem deleteTask_removes_one_then_not_found_witness :
    Atoi "2" = some 2 ∧ (sampleTasks.map Task.ID).Nodup ∧ (∃ t ∈ sampleTasks, t.ID = 2)
    ∧ ∃ saved : List Task,
        deleteTask sampleTasks "2"
          = .ok { stdout := ["The task " ++ toString (2 : Int) ++ " has been removed.\n"]
                  written := some saved }
        ∧ saved.length + 1 = sampleTasks.length
        ∧ (∀ t ∈ saved, t.ID ≠ 2)
        ∧ deleteTask saved "2" = .error (.notFound 2) :=
  ⟨by decide, by decide, by decide,
    deleteTask_removes_one_then_not_found sampleTasks "2" 2 (by decide) (by decide)
      (by decide)⟩

/-- C7: for every collection containing a task with id `i`, the collection
`deleteTask` writes is the original sequence restricted to the tasks whose id
differs from `i`: the remaining tasks are unchanged and in their original
order. -/
theorem deleteTask_writes_the_others_in_order (ts : List Task) (idStr : String) (i : Int)
    (hid : Atoi idStr = some i) (hmem : ∃ t ∈ ts, t.ID = i) :
    ∃ saved : List Task,
      deleteTask ts idStr
        = .ok { stdout := ["The task " ++ toString i ++ " has been removed.\n"]
                written := some saved }
      ∧ saved = ts.filter (fun t => decide (t.ID ≠ i))
      ∧ saved.Sublist ts
      ∧ ∀ t, t ∈ saved ↔ (t ∈ ts ∧ t.ID ≠ i) := by
  refine ⟨_, deleteTask_of_mem ts idStr i hid hmem, rfl, List.filter_sublist _, ?_⟩
  intro t
  simp [List.mem_filter]

/-- C7, witness: deleting task 2 of the sample collection. -/
theorem deleteTask_writes_the_others_in_order_witness :
    Atoi "2" = some 2 ∧ (∃ t ∈ sampleTasks, t.ID = 2)
    ∧ ∃ saved : List Task,
        deleteTask sampleTasks "2"
          = .ok { stdout := ["The task " ++ toString (2 : Int) ++ " has been removed.\n"]
                  written := some saved }
        ∧ saved = sampleTasks.filter (fun t => decide (t.ID ≠ 2))
        ∧ saved.Sublist sampleTasks
        ∧ ∀ t, t ∈ saved ↔ (t ∈ sampleTasks ∧ t.ID ≠ 2) :=
  ⟨by decide, by decide,
    deleteTask_writes_the_others_in_order sampleTasks "2" 2 (by decide) (by decide)⟩

/-! ## Uniqueness of ids -/

/-- C8 (amended): for every collection in which no two tasks share an id, the
collection written by `update`, by `mark-done` and `mark-in-progress` (both
are `updateTaskStatus`) and by `delete` again has no two tasks sharing an id;
the same holds for `add` when every id of the collection is below the largest
machine integer, and then the id `add` assigns differs from every id already
present. -/
theorem unique_ids_preserved (ts : List Task) (hnd : (ts.map Task.ID).Nodup) :
    (∀ (d : String) (now₁ now₂ : Time), (∀ t ∈ ts, t.ID < maxInt) →
      ∃ t : Task,
        addTask ts d now₁ now₂
          = .ok { stdout := ["Task has been added (ID: " ++ toString t.ID ++ ")\n"]
                  written := some (ts ++ [t]) }
        ∧ (∀ u ∈ ts, u.ID ≠ t.ID)
        ∧ ((ts ++ [t]).map Task.ID).Nodup)
    ∧ (∀ (idStr d : String) (now : Time) (out : List String) (saved : List Task),
        updateTask ts idStr d now = .ok ⟨out, some saved⟩ → (saved.map Task.ID).Nodup)
    ∧ (∀ (idStr status : String) (now : Time) (out : List String) (saved : List Task),
        updateTaskStatus ts idStr status now = .ok ⟨out, some saved⟩ →
          (saved.map Task.ID).Nodup)
    ∧ (∀ (idStr : String) (out : List String) (saved : List Task),
        deleteTask ts idStr = .ok ⟨out, some saved⟩ → (saved.map Task.ID).Nodup) := by
  refine ⟨?_, ?_, ?_, ?_⟩
  · intro d now₁ now₂ hlt
    have hfresh : ∀ u ∈ ts, u.ID ≠ (newTask ts d now₁ now₂).ID := by
      intro u hu
      rw [newTask_ID_of_lt ts d now₁ now₂ hlt]
      have := mem_le_maxIDLoop ts 0 u hu
      omega
    refine ⟨newTask ts d now₁ now₂, rfl, hfresh, ?_⟩
    rw [List.map_append, List.nodup_append]
    refine ⟨hnd, by simp, ?_⟩
    intro x hx hx2
    obtain ⟨u, hu, rfl⟩ := List.mem_map.mp hx
    simp at hx2
    exact hfresh u hu hx2
  · intro idStr d now out saved h
    rw [updateTask_map_ID ts idStr d now out saved h]
    exact hnd
  · intro idStr status now out saved h
    rw [updateTaskStatus_map_ID ts idStr status now out saved h]
    exact hnd
  · intro idStr out saved h
    obtain ⟨i, -, -, rfl⟩ := deleteTask_ok ts idStr out saved h
    exact (hnd.sublist ((List.filter_sublist ts).map Task.ID))

/-- C8, witness: the sample collection, whose ids 1, 2 and 3 are distinct. -/
theorem unique_ids_preserved_witness :
    (sampleTasks.map Task.ID).Nodup
    ∧ (∀ (d : String) (now₁ now₂ : Time), (∀ t ∈ sampleTasks, t.ID < maxInt) →
        ∃ t : Task,
          addTask sampleTasks d now₁ now₂
            = .ok { stdout := ["Task has been added (ID: " ++ toString t.ID ++ ")\n"]
                    written := some (sampleTasks ++ [t]) }
          ∧ (∀ u ∈ sampleTasks, u.ID ≠ t.ID)
          ∧ ((sampleTasks ++ [t]).map Task.ID).Nodup)
    ∧ (∀ (idStr d : String) (now : Time) (out : List String) (saved : List Task),
        updateTask sampleTasks idStr d now = .ok ⟨out, some saved⟩ →
          (saved.map Task.ID).Nodup)
    ∧ (∀ (idStr status : String) (now : Time) (out : List String) (saved : List Task),
        updateTaskStatus sampleTasks idStr status now = .ok ⟨out, some saved⟩ →
          (saved.map Task.ID).Nodup)
    ∧ (∀ (idStr : String) (out : List String) (saved : List Task),
        deleteTask sampleTasks idStr = .ok ⟨out, some saved⟩ → (saved.map Task.ID).Nodup) :=
  ⟨by decide, unique_ids_preserved sampleTasks (by decide)⟩

/-- C8, counterexample: the two tasks with the ids 9223372036854775807 and
-9223372036854775808 do not share an id, and `addTask` appends a third task
with the id -9223372036854775808, so that the written collection has two tasks
with the same id. -/
theorem addTask_duplicates_id_at_maxInt :
    ([mkTask 9223372036854775807 "buy milk" "todo",
      mkTask (-9223372036854775808) "walk dog" "todo"].map Task.ID).Nodup
    ∧ addTask [mkTask 9223372036854775807 "buy milk" "todo",
               mkTask (-9223372036854775808) "walk dog" "todo"] "clean" t₁ t₁
        = .ok { stdout := ["Task has been added (ID: -9223372036854775808)\n"]
                written := some [mkTask 9223372036854775807 "buy milk" "todo",
                  mkTask (-9223372036854775808) "walk dog" "todo",
                  { ID := -9223372036854775808, Description := "clean", Status := "todo",
                    CreatedAt := t₁, UpdateAt := t₁ }] }
    ∧ ¬ ([mkTask 9223372036854775807 "buy milk" "todo",
          mkTask (-9223372036854775808) "walk dog" "todo",
          { ID := -9223372036854775808, Description := "clean", Status := "todo",
            CreatedAt := t₁, UpdateAt := t₁ }].map Task.ID).Nodup := by
  decide

/-! ## Ids along a sequence of commands -/

/-- C9 (amended): for every starting collection and every sequence of add and
delete commands in which no delete removes the task holding the current
maximum id and every add runs on a collection whose ids are all below the
largest machine integer, the ids assigned by the successive add commands are
strictly increasing; in particular, starting from the empty collection, add
"buy milk", add "walk dog", delete 1, add "clean" assigns the ids 1, 2 and 3. -/
theorem add_ids_strictly_increasing (ts : List Task) (cmds : List Command)
    (hno : noDeleteOfMax ts cmds = true) (hlt : idsBelowMaxInt ts cmds = true) :
    (assignedIDs ts cmds).Pairwise (fun a b => a < b)
    ∧ assignedIDs [] sampleCommands = [1, 2, 3] :=
  ⟨(assignedIDs_increasing_aux cmds ts hno hlt).2, by decide⟩

/-- C9, witness: the sequence of the example, started on the empty collection. -/
theorem add_ids_strictly_increasing_witness :
    noDeleteOfMax [] sampleCommands = true ∧ idsBelowMaxInt [] sampleCommands = true
    ∧ (assignedIDs [] sampleCommands).Pairwise (fun a b => a < b)
    ∧ assignedIDs [] sampleCommands = [1, 2, 3] :=
  ⟨by decide, by decide,
    add_ids_strictly_increasing [] sampleCommands (by decide) (by decide)⟩

/-- C9, counterexample: started on the collection holding one task with the
id 9223372036854775807, two add commands (and no delete) are both given the id
-9223372036854775808, so the second id is not larger than the first. -/
theorem add_ids_repeat_at_maxInt :
    noDeleteOfMax [mkTask 9223372036854775807 "buy milk" "todo"]
      [.add "walk dog" t₀ t₀, .add "clean" t₁ t₁] = true
    ∧ assignedIDs [mkTask 9223372036854775807 "buy milk" "todo"]
        [.add "walk dog" t₀ t₀, .add "clean" t₁ t₁]
        = [-9223372036854775808, -9223372036854775808]
    ∧ ¬ (assignedIDs [mkTask 9223372036854775807 "buy milk" "todo"]
          [.add "walk dog" t₀ t₀, .add "clean" t₁ t₁]).Pairwise (fun a b => a < b) := by
  decide

/-! ## `add` after the deletion of the highest id -/

/-- C10 (amended): for every collection with unique positive ids, after
deleting the task with the highest id `i`, the next add assigns the largest
remaining id plus one (1 when no task remains); this id never exceeds `i`, and
it is `i` exactly when `i` is 1 or some task of the collection had the id
`i - 1`. -/
theorem add_after_deleting_max (ts : List Task) (idStr d : String) (i : Int)
    (now₁ now₂ : Time) (hid : Atoi idStr = some i) (_hnd : (ts.map Task.ID).Nodup)
    (hpos : ∀ t ∈ ts, 0 < t.ID) (hmem : ∃ t ∈ ts, t.ID = i) (hmax : ∀ t ∈ ts, t.ID ≤ i) :
    ∃ (saved : List Task) (t : Task),
      deleteTask ts idStr
        = .ok { stdout := ["The task " ++ toString i ++ " has been removed.\n"]
                written := some saved }
      ∧ addTask saved d now₁ now₂
          = .ok { stdout := ["Task has been added (ID: " ++ toString t.ID ++ ")\n"]
                  written := some (saved ++ [t]) }
      ∧ (saved = [] → t.ID = 1)
      ∧ (∀ m : Int, (∃ u ∈ saved, u.ID = m) → (∀ u ∈ saved, u.ID ≤ m) → t.ID = m + 1)
      ∧ t.ID ≤ i
      ∧ (t.ID = i ↔ (i = 1 ∨ ∃ u ∈ ts, u.ID + 1 = i)) := by
  -- uniqueness plays no part: `deleteTask` drops every task with the id
  have hi := (Atoi_inRange idStr i hid).2
  have hsaved : ∀ u ∈ ts.filter (fun t => decide (t.ID ≠ i)), 0 < u.ID ∧ u.ID < i := by
    intro u hu
    obtain ⟨hu1, hu2⟩ := List.mem_filter.mp hu
    have h1 := hpos u hu1
    have h2 := hmax u hu1
    have h3 : u.ID ≠ i := by simpa using hu2
    omega
  have hipos : 0 < i := by
    obtain ⟨t, ht, hti⟩ := hmem
    have := hpos t ht
    omega
  have hlt : ∀ u ∈ ts.filter (fun t => decide (t.ID ≠ i)), u.ID < maxInt := by
    intro u hu
    have := (hsaved u hu).2
    omega
  obtain ⟨hempty, hmaxp⟩ :=
    newTask_ID_max_plus_one (ts.filter (fun t => decide (t.ID ≠ i))) d now₁ now₂
      (fun u hu => (hsaved u hu).1) hlt
  have htid := newTask_ID_of_lt (ts.filter (fun t => decide (t.ID ≠ i))) d now₁ now₂ hlt
  have hle : maxIDLoop 0 (ts.filter (fun t => decide (t.ID ≠ i))) ≤ i - 1 :=
    maxIDLoop_le_of_forall _ 0 (i - 1) (by omega)
      (fun u hu => by have := (hsaved u hu).2; omega)
  refine ⟨_, newTask (ts.filter (fun t => decide (t.ID ≠ i))) d now₁ now₂,
    deleteTask_of_mem ts idStr i hid hmem, rfl, hempty, hmaxp, by omega, ?_⟩
  constructor
  · intro heq
    rcases maxIDLoop_eq_init_or_mem (ts.filter (fun t => decide (t.ID ≠ i))) 0 with h | ⟨u, hu, h⟩
    · left; omega
    · right
      exact ⟨u, (List.mem_filter.mp hu).1, by omega⟩
  · rintro (h1 | ⟨u, hu, hui⟩)
    · have h0 := le_maxIDLoop (ts.filter (fun t => decide (t.ID ≠ i))) 0
      omega
    · have hu2 : u ∈ ts.filter (fun t => decide (t.ID ≠ i)) := by
        rw [List.mem_filter]
        refine ⟨hu, ?_⟩
        simp only [decide_eq_true_eq]
        omega
      have := mem_le_maxIDLoop _ 0 u hu2
      omega

/-- C10, witness: in the sample collection the highest id is 3 and the id 2 is
present. -/
theorem add_after_deleting_max_witness :
    Atoi "3" = some 3 ∧ (sampleTasks.map Task.ID).Nodup ∧ (∀ t ∈ sampleTasks, 0 < t.ID)
    ∧ (∃ t ∈ sampleTasks, t.ID = 3) ∧ (∀ t ∈ sampleTasks, t.ID ≤ 3)
    ∧ ∃ (saved : List Task) (t : Task),
        deleteTask sampleTasks "3"
          = .ok { stdout := ["The task " ++ toString (3 : Int) ++ " has been removed.\n"]
                  written := some saved }
        ∧ addTask saved "pay rent" t₁ t₁
            = .ok { stdout := ["Task has been added (ID: " ++ toString t.ID ++ ")\n"]
                    written := some (saved ++ [t]) }
        ∧ (saved = [] → t.ID = 1)
        ∧ (∀ m : Int, (∃ u ∈ saved, u.ID = m) → (∀ u ∈ saved, u.ID ≤ m) → t.ID = m + 1)
        ∧ t.ID ≤ 3
        ∧ (t.ID = 3 ↔ ((3 : Int) = 1 ∨ ∃ u ∈ sampleTasks, u.ID + 1 = 3)) :=
  ⟨by decide, by decide, by decide, by decide, by decide,
    add_after_deleting_max sampleTasks "3" "pay rent" 3 t₁ t₁
      (by decide) (by decide) (by decide) (by decide) (by decide)⟩

/-- C10, counterexample: the collection with the ids 1 and 3 has unique
positive ids; after `delete 3` the next add assigns the id 2, not 3. -/
theorem add_after_deleting_max_assigns_two :
    ([mkTask 1 "buy milk" "todo", mkTask 3 "walk dog" "todo"].map Task.ID).Nodup
    ∧ (0 : Int) < 1 ∧ (0 : Int) < 3 ∧ (1 : Int) ≤ 3
    ∧ deleteTask [mkTask 1 "buy milk" "todo", mkTask 3 "walk dog" "todo"] "3"
        = .ok { stdout := ["The task 3 has been removed.\n"]
                written := some [mkTask 1 "buy milk" "todo"] }
    ∧ addTask [mkTask 1 "buy milk" "todo"] "clean" t₁ t₁
        = .ok { stdout := ["Task has been added (ID: 2)\n"]
                written := some [mkTask 1 "buy milk" "todo",
                  { ID := 2, Description := "clean", Status := "todo",
                    CreatedAt := t₁, UpdateAt := t₁ }] }
    ∧ (2 : Int) ≠ 3 := by
  decide

/-! ## Errors of `update`, `mark` and `delete` -/

/-- C11: for every collection and every id argument that `strconv.Atoi` reads
as the integer `i`, each of `updateTask`, `updateTaskStatus` and `deleteTask`
returns the not-found error if and only if no task of the collection has the
id `i`, and each of them succeeds and writes a collection when some task has
it. -/
theorem notFound_iff_id_absent (ts : List Task) (idStr d status : String) (i : Int)
    (now : Time) (hid : Atoi idStr = some i) :
    (updateTask ts idStr d now = .error (.notFound i) ↔ ∀ t ∈ ts, t.ID ≠ i)
    ∧ (updateTaskStatus ts idStr status now = .error (.notFound i) ↔ ∀ t ∈ ts, t.ID ≠ i)
    ∧ (deleteTask ts idStr = .error (.notFound i) ↔ ∀ t ∈ ts, t.ID ≠ i)
    ∧ ((∃ t ∈ ts, t.ID = i) →
        (∃ out saved, updateTask ts idStr d now = .ok ⟨out, some saved⟩)
        ∧ (∃ out saved, updateTaskStatus ts idStr status now = .ok ⟨out, some saved⟩)
        ∧ (∃ out saved, deleteTask ts idStr = .ok ⟨out, some saved⟩)) := by
  refine ⟨⟨?_, updateTask_of_not_mem ts idStr d i now hid⟩,
    ⟨?_, updateTaskStatus_of_not_mem ts idStr status i now hid⟩,
    ⟨?_, deleteTask_of_not_mem ts idStr i hid⟩, ?_⟩
  · intro h t ht hti
    obtain ⟨j, tj, -, -, -, hok⟩ := updateTask_of_mem ts idStr d i now hid ⟨t, ht, hti⟩
    rw [hok] at h
    cases h
  · intro h t ht hti
    obtain ⟨j, tj, -, -, -, hok⟩ := updateTaskStatus_of_mem ts idStr status i now hid ⟨t, ht, hti⟩
    rw [hok] at h
    cases h
  · intro h t ht hti
    rw [deleteTask_of_mem ts idStr i hid ⟨t, ht, hti⟩] at h
    cases h
  · intro hmem
    obtain ⟨j, tj, -, -, -, hok⟩ := updateTask_of_mem ts idStr d i now hid hmem
    obtain ⟨j2, tj2, -, -, -, hok2⟩ := updateTaskStatus_of_mem ts idStr status i now hid hmem
    exact ⟨⟨_, _, hok⟩, ⟨_, _, hok2⟩, ⟨_, _, deleteTask_of_mem ts idStr i hid hmem⟩⟩

/-- C11, witness: the id argument "7" on the sample collection, which has no
task 7. -/
theorem notFound_iff_id_absent_witness :
    Atoi "7" = some 7
    ∧ (updateTask sampleTasks "7" "walk cat" t₁ = .error (.notFound 7)
        ↔ ∀ t ∈ sampleTasks, t.ID ≠ 7)
    ∧ (updateTaskStatus sampleTasks "7" "done" t₁ = .error (.notFound 7)
        ↔ ∀ t ∈ sampleTasks, t.ID ≠ 7)
    ∧ (deleteTask sampleTasks "7" = .error (.notFound 7) ↔ ∀ t ∈ sampleTasks, t.ID ≠ 7)
    ∧ ((∃ t ∈ sampleTasks, t.ID = 7) →
        (∃ out saved, updateTask sampleTasks "7" "walk cat" t₁ = .ok ⟨out, some saved⟩)
        ∧ (∃ out saved, updateTaskStatus sampleTasks "7" "done" t₁ = .ok ⟨out, some saved⟩)
        ∧ (∃ out saved, deleteTask sampleTasks "7" = .ok ⟨out, some saved⟩)) :=
  ⟨by decide, notFound_iff_id_absent sampleTasks "7" "walk cat" "done" 7 t₁ (by decide)⟩

/-- C12: whenever the id argument is not an integer, or is an integer that no
task of the collection has as its id, each of `update`, `mark-done`,
`mark-in-progress` and `delete` returns an error (the incorrect-format error in
the first case, the not-found error in the second) and writes nothing, so the
collection in the file is the one that was loaded. -/
theorem failed_command_saves_nothing (ts : List Task) (idStr d : String) (now₁ now₂ : Time)
    (h : Atoi idStr = none ∨ ∃ i, Atoi idStr = some i ∧ ∀ t ∈ ts, t.ID ≠ i) :
    ∃ e : Err,
      (e = .incorrectID idStr ∨ ∃ i, Atoi idStr = some i ∧ e = .notFound i)
      ∧ run "update" [idStr, d] ts now₁ now₂ = .error e
      ∧ run "mark-done" [idStr] ts now₁ now₂ = .error e
      ∧ run "mark-in-progress" [idStr] ts now₁ now₂ = .error e
      ∧ run "delete" [idStr] ts now₁ now₂ = .error e
      ∧ stored ts (run "update" [idStr, d] ts now₁ now₂) = ts
      ∧ stored ts (run "mark-done" [idStr] ts now₁ now₂) = ts
      ∧ stored ts (run "mark-in-progress" [idStr] ts now₁ now₂) = ts
      ∧ stored ts (run "delete" [idStr] ts now₁ now₂) = ts := by
  have hu : run "update" [idStr, d] ts now₁ now₂ = updateTask ts idStr d now₁ := by simp [run]
  have hd : run "mark-done" [idStr] ts now₁ now₂ = updateTaskStatus ts idStr "done" now₁ := by
    simp [run]
  have hp : run "mark-in-progress" [idStr] ts now₁ now₂
      = updateTaskStatus ts idStr "in-progress" now₁ := by simp [run]
  have hx : run "delete" [idStr] ts now₁ now₂ = deleteTask ts idStr := by simp [run]
  rw [hu, hd, hp, hx]
  rcases h with hbad | ⟨i, hid, hno⟩
  · have hf := findTaskIndexByID_of_bad_id ts idStr hbad
    have h1 : updateTask ts idStr d now₁ = .error (.incorrectID idStr) := by
      simp [updateTask, hf]
    have h2 : ∀ s, updateTaskStatus ts idStr s now₁ = .error (.incorrectID idStr) := by
      intro s; simp [updateTaskStatus, hf]
    have h3 : deleteTask ts idStr = .error (.incorrectID idStr) := by
      simp [deleteTask, hbad]
    refine ⟨.incorrectID idStr, Or.inl rfl, h1, h2 _, h2 _, h3, ?_, ?_, ?_, ?_⟩
    · rw [h1]; rfl
    · rw [h2]; rfl
    · rw [h2]; rfl
    · rw [h3]; rfl
  · have h1 := updateTask_of_not_mem ts idStr d i now₁ hid hno
    have h2 := fun s => updateTaskStatus_of_not_mem ts idStr s i now₁ hid hno
    have h3 := deleteTask_of_not_mem ts idStr i hid hno
    refine ⟨.notFound i, Or.inr ⟨i, hid, rfl⟩, h1, h2 _, h2 _, h3, ?_, ?_, ?_, ?_⟩
    · rw [h1]; rfl
    · rw [h2]; rfl
    · rw [h2]; rfl
    · rw [h3]; rfl

/-- C12, witness: the id argument "abc" is not an integer. -/
theorem failed_command_saves_nothing_witness :
    (Atoi "abc" = none ∨ ∃ i, Atoi "abc" = some i ∧ ∀ t ∈ sampleTasks, t.ID ≠ i)
    ∧ ∃ e : Err,
        (e = .incorrectID "abc" ∨ ∃ i, Atoi "abc" = some i ∧ e = .notFound i)
        ∧ run "update" ["abc", "walk cat"] sampleTasks t₀ t₁ = .error e
        ∧ run "mark-done" ["abc"] sampleTasks t₀ t₁ = .error e
        ∧ run "mark-in-progress" ["abc"] sampleTasks t₀ t₁ = .error e
        ∧ run "delete" ["abc"] sampleTasks t₀ t₁ = .error e
        ∧ stored sampleTasks (run "update" ["abc", "walk cat"] sampleTasks t₀ t₁) = sampleTasks
        ∧ stored sampleTasks (run "mark-done" ["abc"] sampleTasks t₀ t₁) = sampleTasks
        ∧ stored sampleTasks (run "mark-in-progress" ["abc"] sampleTasks t₀ t₁) = sampleTasks
        ∧ stored sampleTasks (run "delete" ["abc"] sampleTasks t₀ t₁) = sampleTasks :=
  ⟨Or.inl (by decide),
    failed_command_saves_nothing sampleTasks "abc" "walk cat" t₀ t₁ (Or.inl (by decide))⟩

/-! ## `list` -/

/-- C13: for every collection and every filter `f`, the loop of `listTasks`
prints one line `<id>. [<status>] <description>` per task whose status equals
`f` (per every task when `f` is `all`), in collection order, and no other
line; the output of `listTasks` is those lines between the two separators,
followed by the messages; when `f` is not `all` and is the status of no task,
no task line is printed. -/
theorem listTasks_prints_matching_tasks (ts : List Task) (f : String) :
    listLoop f ts = (ts.filter (fun t => decide (f = "all" ∨ t.Status = f))).map taskLine
    ∧ (∀ t : Task,
        taskLine t = toString t.ID ++ ". [" ++ t.Status ++ "] " ++ t.Description ++ "\n")
    ∧ listTasks ts f
        = .ok { stdout := [separator] ++ listLoop f ts
                  ++ (if f ≠ "all" then
                        ["Tasks with status " ++ "\x27" ++ f ++ "\x27" ++ " are not found"]
                      else [])
                  ++ (if ts = [] then ["Task list is empty\n"] else [])
                  ++ [separator]
                written := none }
    ∧ (f ≠ "all" → (∀ t ∈ ts, t.Status ≠ f) → listLoop f ts = []) := by
  refine ⟨listLoop_eq_filter f ts, fun _ => rfl, ?_, ?_⟩
  · cases ts <;> simp [listTasks]
  · intro hf hno
    rw [listLoop_eq_filter]
    simp only [List.map_eq_nil_iff, List.filter_eq_nil_iff, decide_eq_true_eq]
    intro t ht
    rintro (h | h)
    · exact hf h
    · exact hno t ht h

/-- C14, the code at the failing input: on the collection holding task 3 with
status `done`, `list done` prints the line of task 3 and, after it, the
message that tasks with status `done` are not found. -/
theorem listTasks_reports_not_found_despite_match :
    listTasks [mkTask 3 "clean" "done"] "done"
      = .ok { stdout := [separator, "3. [done] clean\n",
                         "Tasks with status \x27done\x27 are not found", separator]
              written := none }
    ∧ (mkTask 3 "clean" "done").Status = "done" := by
  decide

/-! ## `add` and its argument -/

/-- C17 (amended): the add command requires a description argument: for every
collection, `add` with the description argument missing returns a usage error
and leaves the collection in the file unchanged, whereas `add` with the empty
string as description succeeds and appends a task whose description is
empty. -/
theorem add_checks_only_argument_count (ts : List Task) (now₁ now₂ : Time) :
    run "add" [] ts now₁ now₂ = .error (.usage "There is no description for task")
    ∧ stored ts (run "add" [] ts now₁ now₂) = ts
    ∧ ∀ more : List String, ∃ t : Task,
        run "add" ("" :: more) ts now₁ now₂
          = .ok { stdout := ["Task has been added (ID: " ++ toString t.ID ++ ")\n"]
                  written := some (ts ++ [t]) }
        ∧ t.Description = "" ∧ t.Status = "todo" := by
  refine ⟨by simp [run], by simp [run, stored], ?_⟩
  intro more
  exact ⟨newTask ts "" now₁ now₂, by simp [run, addTask], rfl, rfl⟩

/-- C17, counterexample: on the empty collection, `add` with the empty string
as description returns no error and writes a collection holding task 1 with
the empty description. -/
theorem add_accepts_empty_description :
    run "add" [""] [] t₀ t₁
      = .ok { stdout := ["Task has been added (ID: 1)\n"]
              written := some [{ ID := 1, Description := "", Status := "todo",
                                 CreatedAt := t₀, UpdateAt := t₁ }] } := by
  decide

/-! ## The file -/

/-- C15: `readTasksFromFile` returns the empty collection and no error both
when the file does not exist and when it exists with zero bytes; on that empty
collection `listTasks` returns no error and prints the message that the task
list is empty, for every filter. -/
theorem read_of_missing_or_empty_file (codec : TimeCodec) (f : String) :
    readTasksFromFile codec .missing = .ok (.of [])
    ∧ readTasksFromFile codec (.content .zeroBytes) = .ok (.of [])
    ∧ (Slice.of []).toList = []
    ∧ listTasks (Slice.of []).toList "all"
        = .ok { stdout := [separator, "Task list is empty\n", separator], written := none }
    ∧ ∃ eff : Effect, listTasks (Slice.of []).toList f = .ok eff
        ∧ "Task list is empty\n" ∈ eff.stdout ∧ eff.written = none := by
  refine ⟨rfl, rfl, rfl, by decide, _, rfl, ?_, rfl⟩
  simp [Slice.toList, listLoop]

/-- C18, the code at the failing input: `deleteTask` on the collection holding
only task 1 passes the nil slice to `writeTasksToFile`, which writes the
document `null`, not the empty array `[]` that the empty non-nil slice gives;
reading the file back yields the nil slice. -/
theorem delete_of_only_task_writes_null (codec : TimeCodec) :
    deleteTaskSlice [mkTask 1 "buy milk" "todo"] "1"
      = .ok (["The task 1 has been removed.\n"], .nil)
    ∧ deleteTask [mkTask 1 "buy milk" "todo"] "1"
      = .ok { stdout := ["The task 1 has been removed.\n"], written := some [] }
    ∧ writeTasksToFile codec .nil = .ok (.json .null)
    ∧ writeTasksToFile codec .nil ≠ .ok (.json (.arr []))
    ∧ writeTasksToFile codec (.of []) = .ok (.json (.arr []))
    ∧ readTasksFromFile codec (.content (.json .null)) = .ok .nil := by
  refine ⟨by decide, by decide, rfl, ?_, rfl, rfl⟩
  intro h
  injection h with h
  injection h with h
  cases h

/-- C20: on a collection that holds a task with id `i` (possibly several),
`updateTask` and `updateTaskStatus` overwrite the first task with id `i` in
collection order and leave every other position as it was, so the collection
they write has as many tasks with id `i` as before; `deleteTask` writes the
tasks whose id differs from `i`, so the collection it writes has none. -/
theorem duplicate_ids_update_first_delete_all (ts : List Task) (idStr d status : String)
    (i : Int) (now : Time) (hid : Atoi idStr = some i) (hmem : ∃ t ∈ ts, t.ID = i) :
    (∃ (j : Nat) (tj : Task) (saved : List Task),
        ts[j]? = some tj ∧ tj.ID = i
        ∧ (∀ j2 t2, j2 < j → ts[j2]? = some t2 → t2.ID ≠ i)
        ∧ updateTask ts idStr d now
            = .ok { stdout := ["The task " ++ toString i ++ " has been updated.\n"]
                    written := some saved }
        ∧ saved[j]? = some { tj with Description := d, UpdateAt := now }
        ∧ (∀ k, k ≠ j → saved[k]? = ts[k]?)
        ∧ (saved.map Task.ID).count i = (ts.map Task.ID).count i)
    ∧ (∃ (j : Nat) (tj : Task) (saved : List Task),
        ts[j]? = some tj ∧ tj.ID = i
        ∧ (∀ j2 t2, j2 < j → ts[j2]? = some t2 → t2.ID ≠ i)
        ∧ updateTaskStatus ts idStr status now
            = .ok { stdout := ["Status of the task " ++ toString i
                                  ++ " has been changed to " ++ status ++ ".\n"]
                    written := some saved }
        ∧ saved[j]? = some { tj with UpdateAt := now, Status := "done" }
        ∧ (∀ k, k ≠ j → saved[k]? = ts[k]?)
        ∧ (saved.map Task.ID).count i = (ts.map Task.ID).count i)
    ∧ (∃ saved : List Task,
        deleteTask ts idStr
          = .ok { stdout := ["The task " ++ toString i ++ " has been removed.\n"]
                  written := some saved }
        ∧ saved = ts.filter (fun t => decide (t.ID ≠ i))
        ∧ (∀ t ∈ saved, t.ID ≠ i)
        ∧ (saved.map Task.ID).count i = 0)
    ∧ 0 < (ts.map Task.ID).count i := by
  refine ⟨?_, ?_, ?_, ?_⟩
  · obtain ⟨j, tj, hj, htj, hfirst, hok⟩ := updateTask_of_mem ts idStr d i now hid hmem
    refine ⟨j, tj, _, hj, htj, hfirst, hok, ?_, ?_, ?_⟩
    · simp [List.getElem?_set, lt_length_of_getElem? ts j tj hj]
    · intro k hk
      exact getElem?_set_of_ne ts j k _ hk
    · exact congrArg (List.count i) (map_ID_set ts j tj _ hj rfl)
  · obtain ⟨j, tj, hj, htj, hfirst, hok⟩ := updateTaskStatus_of_mem ts idStr status i now hid hmem
    refine ⟨j, tj, _, hj, htj, hfirst, hok, ?_, ?_, ?_⟩
    · simp [List.getElem?_set, lt_length_of_getElem? ts j tj hj]
    · intro k hk
      exact getElem?_set_of_ne ts j k _ hk
    · exact congrArg (List.count i) (map_ID_set ts j tj _ hj rfl)
  · have hno : ∀ t ∈ ts.filter (fun t => decide (t.ID ≠ i)), t.ID ≠ i := by
      intro t ht
      simpa using (List.mem_filter.mp ht).2
    refine ⟨_, deleteTask_of_mem ts idStr i hid hmem, rfl, hno, ?_⟩
    rw [List.count_eq_zero]
    intro hin
    obtain ⟨t, ht, hti⟩ := List.mem_map.mp hin
    exact hno t ht hti
  · rw [List.count_pos_iff]
    obtain ⟨t, ht, hti⟩ := hmem
    exact List.mem_map.mpr ⟨t, ht, hti⟩

/-- C20, witness: the collection in which two tasks share the id 2. -/
theorem duplicate_ids_update_first_delete_all_witness :
    Atoi "2" = some 2 ∧ (∃ t ∈ duplicateTasks, t.ID = 2)
    ∧ (duplicateTasks.map Task.ID).count 2 = 2
    ∧ (∃ (j : Nat) (tj : Task) (saved : List Task),
        duplicateTasks[j]? = some tj ∧ tj.ID = 2
        ∧ (∀ j2 t2, j2 < j → duplicateTasks[j2]? = some t2 → t2.ID ≠ 2)
        ∧ updateTask duplicateTasks "2" "walk cat" t₁
            = .ok { stdout := ["The task " ++ toString (2 : Int) ++ " has been updated.\n"]
                    written := some saved }
        ∧ saved[j]? = some { tj with Description := "walk cat", UpdateAt := t₁ }
        ∧ (∀ k, k ≠ j → saved[k]? = duplicateTasks[k]?)
        ∧ (saved.map Task.ID).count 2 = (duplicateTasks.map Task.ID).count 2)
    ∧ (∃ (j : Nat) (tj : Task) (saved : List Task),
        duplicateTasks[j]? = some tj ∧ tj.ID = 2
        ∧ (∀ j2 t2, j2 < j → duplicateTasks[j2]? = some t2 → t2.ID ≠ 2)
        ∧ updateTaskStatus duplicateTasks "2" "in-progress" t₁
            = .ok { stdout := ["Status of the task " ++ toString (2 : Int)
                                  ++ " has been changed to " ++ "in-progress" ++ ".\n"]
                    written := some saved }
        ∧ saved[j]? = some { tj with UpdateAt := t₁, Status := "done" }
        ∧ (∀ k, k ≠ j → saved[k]? = duplicateTasks[k]?)
        ∧ (saved.map Task.ID).count 2 = (duplicateTasks.map Task.ID).count 2)
    ∧ (∃ saved : List Task,
        deleteTask duplicateTasks "2"
          = .ok { stdout := ["The task " ++ toString (2 : Int) ++ " has been removed.\n"]
                  written := some saved }
        ∧ saved = duplicateTasks.filter (fun t => decide (t.ID ≠ 2))
        ∧ (∀ t ∈ saved, t.ID ≠ 2)
        ∧ (saved.map Task.ID).count 2 = 0)
    ∧ 0 < (duplicateTasks.map Task.ID).count 2 :=
  ⟨by decide, by decide, by decide,
    duplicate_ids_update_first_delete_all duplicateTasks "2" "walk cat" "in-progress" 2 t₁
      (by decide) (by decide)⟩

end TaskTracker
